import Mathlib

/-!
# ResourceFlow allocation engine — shallow embedding and verification

A shallow embedding of the allocation-grid core of the ResourceFlow
staffing planner:

* the allocation store and its primitive operations
  (`addAllocation` / `updateAllocation` / `deleteAllocation` from the
  application root component),
* the gesture edit engine (`updateAllocationValue`,
  `handleCellMouseDown`, `handleCellMouseEnter`, `handleCellMouseUp`,
  the global mouse-up listener, `startEditing`, `saveEditing`,
  `handleRemoveMemberFromProject` from the project-grid component),
* the calendar helpers (`getBusinessDaysInMonth`,
  `getBusinessHoursInMonth` from the utils module),
* the aggregation paths (`calculateProjectTotal` from the project-grid
  component, the monthly financial series from the dashboard component,
  and the over-allocation pre-check of `analyzeResourceForecast`).

Modelling conventions:

* JavaScript numbers holding percentages are modelled as `Int`
  (every value the engine writes is an integer; direct entry parses an
  integer and may be negative), currency amounts as `ℚ`.
* Month identifiers (`"YYYY-MM"` strings in the source) are modelled as
  a `MonthId` structure holding the two parsed components.  The
  lexicographic order of zero-padded `"YYYY-MM"` strings coincides with
  the (year, month) lexicographic order used here.
* `crypto.randomUUID()` is modelled as a fresh-identifier counter
  `nextId` carried in the grid state: each created record receives the
  current counter value and the counter is bumped.  Freshness of the
  UUIDs is reflected by the `StoreInv` invariant that every stored id
  is below the counter.
* The JS `Set` of painted cell keys (string concatenation
  `` `${projectId}-${memberId}-${month}` `` in the source) is modelled
  as a list of (projectId, memberId, month) triples; within one gesture
  every key added shares the gesture's row, so the triple view is exact.
-/

/-- A `"YYYY-MM"` month identifier, in parsed form. -/
structure MonthId where
  year : Nat
  month : Nat
deriving DecidableEq, Repr

/-- An allocation record (`Allocation` in `types.ts`): one
(project, member, month) percentage cell. -/
structure Allocation where
  id : Nat
  projectId : String
  memberId : String
  month : MonthId
  percentage : Int
deriving DecidableEq, Repr

/-- Member classification tag (`MemberType` in `types.ts`); it affects no
computation in the modelled core. -/
inductive MemberType where
  | fullTime
  | contractor
  | consultant
deriving DecidableEq, Repr

/-- A role with its billing rate (`Role` in `types.ts`). -/
structure Role where
  id : String
  title : String
  defaultHourlyRate : ℚ
deriving DecidableEq, Repr

/-- A team member (`TeamMember` in `types.ts`); the avatar URL is
presentation-only and omitted. -/
structure TeamMember where
  id : String
  name : String
  roleId : String
  memberType : MemberType
deriving DecidableEq, Repr

/-! ## Allocation store primitives (root component `App`) -/

/-- `addAllocation`: append a record (`setAllocations(prev => [...prev, alloc])`). -/
def addAllocation (a : Allocation) (l : List Allocation) : List Allocation :=
  l ++ [a]

/-- `updateAllocation`: replace the record with matching id
(`prev.map(a => a.id === alloc.id ? alloc : a)`). -/
def updateAllocation (a : Allocation) (l : List Allocation) : List Allocation :=
  l.map (fun x => if x.id == a.id then a else x)

/-- `deleteAllocation`: drop the record with the given id
(`prev.filter(a => a.id !== id)`). -/
def deleteAllocation (aid : Nat) (l : List Allocation) : List Allocation :=
  l.filter (fun x => x.id != aid)

/-- The cell-key predicate used throughout the grid component:
`a.projectId === projectId && a.memberId === memberId && a.month === month`. -/
def allocMatches (p m : String) (mo : MonthId) (a : Allocation) : Bool :=
  a.projectId == p && a.memberId == m && a.month == mo

/-- `allocations.find(...)` on the cell key. -/
def findAllocation (l : List Allocation) (p m : String) (mo : MonthId) :
    Option Allocation :=
  l.find? (allocMatches p m mo)

/-! ## Grid state (project-grid component `ProjectList`) -/

/-- The `dragState` ref of the grid component. -/
structure DragState where
  active : Bool
  projectId : String
  memberId : String
  startMonth : MonthId
  startValue : Int
  paintValue : Int
  hasMoved : Bool
  paintedCells : List (String × String × MonthId)
deriving DecidableEq, Repr

/-- The mutable state the edit engine acts on: the allocation list (held
by the root component), the fresh-id counter standing for UUID
generation, the drag ref, and the cell-editing state
(`editingCell` / `editValue`). -/
structure GridState where
  allocations : List Allocation
  nextId : Nat
  drag : DragState
  editingCell : Option (String × String × MonthId)
  editValue : String
deriving DecidableEq, Repr

/-- The percentage a grid cell displays:
`allocations.find(...)?.percentage || 0`. -/
def cellValue (s : GridState) (p m : String) (mo : MonthId) : Int :=
  match findAllocation s.allocations p m mo with
  | some a => a.percentage
  | none => 0

/-- `updateAllocationValue`: the single write path of the edit engine.
Positive values upsert (update in place when changed, else create with a
fresh id); non-positive values delete the existing record if present and
otherwise do nothing. -/
def updateAllocationValue (p m : String) (mo : MonthId) (newValue : Int)
    (s : GridState) : GridState :=
  let existing := findAllocation s.allocations p m mo
  if newValue > 0 then
    match existing with
    | some ex =>
      if ex.percentage != newValue then
        { s with allocations :=
            updateAllocation { ex with percentage := newValue } s.allocations }
      else s
    | none =>
      { s with
        allocations :=
          addAllocation ⟨s.nextId, p, m, mo, newValue⟩ s.allocations,
        nextId := s.nextId + 1 }
  else
    match existing with
    | some ex => { s with allocations := deleteAllocation ex.id s.allocations }
    | none => s

/-- `handleCellMouseDown`: arm the drag gesture; the paint value is 100
when the pressed cell shows 0 and 0 otherwise. -/
def handleCellMouseDown (p m : String) (mo : MonthId) (currentVal : Int)
    (s : GridState) : GridState :=
  { s with drag :=
      { active := true
        projectId := p
        memberId := m
        startMonth := mo
        startValue := currentVal
        paintValue := if currentVal == 0 then 100 else 0
        hasMoved := false
        paintedCells := [] } }

/-- `handleCellMouseEnter`: the drag-paint step.  Ignores enters while no
gesture is active and enters outside the gesture's row; on the first
same-row enter at a new month it marks the gesture as moved and
retroactively paints the start cell; while moved it paints each
not-yet-painted entered cell with the gesture's paint value. -/
def handleCellMouseEnter (p m : String) (mo : MonthId) (s : GridState) :
    GridState :=
  if !s.drag.active then s
  else if s.drag.projectId != p || s.drag.memberId != m then s
  else
    let s1 :=
      if !s.drag.hasMoved && mo != s.drag.startMonth then
        let startKey := (p, m, s.drag.startMonth)
        let s' := { s with drag := { s.drag with hasMoved := true } }
        if !s'.drag.paintedCells.contains startKey then
          let s'' := updateAllocationValue p m s'.drag.startMonth
            s'.drag.paintValue s'
          { s'' with drag :=
              { s''.drag with paintedCells := startKey :: s''.drag.paintedCells } }
        else s'
      else s
    if s1.drag.hasMoved then
      let currentKey := (p, m, mo)
      if !s1.drag.paintedCells.contains currentKey then
        let s2 := updateAllocationValue p m mo s1.drag.paintValue s1
        { s2 with drag :=
            { s2.drag with paintedCells := currentKey :: s2.drag.paintedCells } }
      else s1
    else s1

/-- `handleCellMouseUp`: end the gesture; when no movement happened the
release is a click-cycle write (0 → 100 → 100 → 50 → else → 0) at the
released cell. -/
def handleCellMouseUp (p m : String) (mo : MonthId) (currentVal : Int)
    (s : GridState) : GridState :=
  if !s.drag.active then s
  else
    let s1 :=
      if !s.drag.hasMoved then
        let nextVal : Int :=
          if currentVal == 0 then 100
          else if currentVal == 100 then 50
          else 0
        updateAllocationValue p m mo nextVal s
      else s
    { s1 with drag := { s1.drag with active := false, paintedCells := [] } }

/-- The window-level `mouseup` listener: close any active gesture. -/
def handleGlobalMouseUp (s : GridState) : GridState :=
  if s.drag.active then
    { s with drag := { s.drag with active := false, paintedCells := [] } }
  else s

/-- `startEditing`: open a cell for direct entry, seeding the text with
the current value (blank for 0) and cancelling any drag. -/
def startEditing (p m : String) (mo : MonthId) (currentVal : Int)
    (s : GridState) : GridState :=
  { s with
    editingCell := some (p, m, mo)
    editValue := if currentVal > 0 then toString currentVal else ""
    drag := { s.drag with active := false } }

/-! ## `parseInt` model

JavaScript's `parseInt(text)` (radix unspecified): skip leading
whitespace, read an optional sign, honour a `0x`/`0X` hexadecimal
prefix, then take the maximal digit prefix; `NaN` when no digit was
read.  (Precision loss on astronomically long digit strings is not
modelled; the result is an exact integer.) -/

/-- Whitespace skipped by `parseInt` (ASCII part of JS `StrWhiteSpace`). -/
def isJsSpace (c : Char) : Bool :=
  c == ' ' || c == '\t' || c == '\n' || c == '\r' || c == '\x0b' || c == '\x0c'

/-- Value of a hexadecimal digit. -/
def isHexDigit (c : Char) : Bool :=
  c.isDigit || ('a' ≤ c && c ≤ 'f') || ('A' ≤ c && c ≤ 'F')

/-- Numeric value of one hexadecimal digit character. -/
def hexDigitVal (c : Char) : Nat :=
  if c.isDigit then c.toNat - '0'.toNat
  else if 'a' ≤ c && c ≤ 'f' then c.toNat - 'a'.toNat + 10
  else c.toNat - 'A'.toNat + 10

/-- Accumulate a digit list in the given radix. -/
def digitsToNat (radix : Nat) (l : List Char) : Nat :=
  l.foldl (fun acc c => acc * radix + hexDigitVal c) 0

/-- The `parseInt(editValue)` call of `saveEditing`. -/
def parseIntJS (str : String) : Option Int :=
  let l := str.data.dropWhile isJsSpace
  let sign : Int := match l with
    | '-' :: _ => -1
    | _ => 1
  let l := match l with
    | '-' :: rest => rest
    | '+' :: rest => rest
    | _ => l
  match l with
  | '0' :: c :: rest =>
    if c == 'x' || c == 'X' then
      let ds := rest.takeWhile isHexDigit
      if ds.isEmpty then none else some (sign * (digitsToNat 16 ds : Int))
    else
      let ds := l.takeWhile Char.isDigit
      if ds.isEmpty then none else some (sign * (digitsToNat 10 ds : Int))
  | _ =>
    let ds := l.takeWhile Char.isDigit
    if ds.isEmpty then none else some (sign * (digitsToNat 10 ds : Int))

/-- `saveEditing`: commit the entry text; unparseable text performs no
store write; otherwise the parsed value goes through
`updateAllocationValue`.  Editing state is cleared either way. -/
def saveEditing (s : GridState) : GridState :=
  match s.editingCell with
  | none => s
  | some (p, m, mo) =>
    let s1 :=
      match parseIntJS s.editValue with
      | some n => updateAllocationValue p m mo n s
      | none => s
    { s1 with editingCell := none, editValue := "" }

/-- `handleRemoveMemberFromProject` (allocation part): delete every
record of the (project, member) pair, one `deleteAllocation` per
matching record.  (The component also prunes its local `addedMembers`
view state, which holds no allocation data and is not modelled.) -/
def handleRemoveMemberFromProject (p m : String) (s : GridState) : GridState :=
  let matching := s.allocations.filter
    (fun a => a.projectId == p && a.memberId == m)
  matching.foldl
    (fun st a => { st with allocations := deleteAllocation a.id st.allocations })
    s

/-! ## Event-level step function

The grid component wires each handler to the matching DOM event and
passes the cell's displayed percentage (`alloc?.percentage || 0`) as
`currentVal`; `step` performs that dispatch. -/

/-- One discrete user event on the grid. -/
inductive GridEvent where
  | mouseDown (p m : String) (mo : MonthId)
  | mouseEnter (p m : String) (mo : MonthId)
  | mouseUp (p m : String) (mo : MonthId)
  | globalMouseUp
  | openEditor (p m : String) (mo : MonthId)
  | setEditValue (text : String)
  | commitEdit
  | removeMember (p m : String)
deriving DecidableEq, Repr

/-- Dispatch one event exactly as the component's JSX wires it. -/
def step (s : GridState) (e : GridEvent) : GridState :=
  match e with
  | .mouseDown p m mo => handleCellMouseDown p m mo (cellValue s p m mo) s
  | .mouseEnter p m mo => handleCellMouseEnter p m mo s
  | .mouseUp p m mo => handleCellMouseUp p m mo (cellValue s p m mo) s
  | .globalMouseUp => handleGlobalMouseUp s
  | .openEditor p m mo => startEditing p m mo (cellValue s p m mo) s
  | .setEditValue t => { s with editValue := t }
  | .commitEdit => saveEditing s
  | .removeMember p m => handleRemoveMemberFromProject p m s

/-- Run a sequence of grid events. -/
def runEvents (s : GridState) (es : List GridEvent) : GridState :=
  es.foldl step s

/-! ## Calendar (`utils` module) -/

/-- Gregorian leap-year rule, as implemented by the JS `Date` object. -/
def isLeapYear (y : Nat) : Bool :=
  (y % 4 == 0 && y % 100 != 0) || y % 400 == 0

/-- Number of days in a month; `m` is 0-indexed as in the JS `Date`
constructor (0 = January). -/
def daysInMonth (y m : Nat) : Nat :=
  if m == 1 then (if isLeapYear y then 29 else 28)
  else if m == 3 || m == 5 || m == 8 || m == 10 then 30
  else 31

/-- Day of week of a Gregorian date (`m` is 1..12), with the JS
`Date.getDay` convention 0 = Sunday .. 6 = Saturday (Sakamoto's
congruence). -/
def dayOfWeek (y m d : Nat) : Nat :=
  let yy := if m < 3 then y - 1 else y
  let t := [0, 3, 2, 5, 0, 3, 5, 1, 4, 6, 2, 4]
  (yy + yy / 4 - yy / 100 + yy / 400 + t.getD (m - 1) 0 + d) % 7

/-- `getBusinessDaysInMonth(year, month)` (`month` 0-indexed): the
source walks a `Date` from day 1 while the month is unchanged and
counts days whose `getDay()` is neither 0 (Sunday) nor 6 (Saturday). -/
def getBusinessDaysInMonth (year month : Nat) : Nat :=
  ((List.range (daysInMonth year month)).filter (fun i =>
    let day := dayOfWeek year (month + 1) (i + 1)
    day != 0 && day != 6)).length

/-- `getBusinessHoursInMonth(monthStr)`: parse the `"YYYY-MM"` pair and
multiply the business-day count by the 8-hour workday. -/
def getBusinessHoursInMonth (mo : MonthId) : Nat :=
  getBusinessDaysInMonth mo.year (mo.month - 1) * 8

/-! ## Aggregation -/

/-- `calculateProjectTotal` (project-grid component): fold the project's
allocations, resolving member then role; unresolvable references add
nothing; resolvable ones add `hours * (percentage / 100) * rate`. -/
def calculateProjectTotal (allocations : List Allocation)
    (members : List TeamMember) (roles : List Role) (projId : String) : ℚ :=
  (allocations.filter (fun a => a.projectId == projId)).foldl
    (fun sum alloc =>
      let member := members.find? (fun mb => mb.id == alloc.memberId)
      let role : Option Role := match member with
        | some mb => roles.find? (fun r => r.id == mb.roleId)
        | none => none
      match member, role with
      | some _, some r =>
        let hours : ℚ :=
          (getBusinessHoursInMonth alloc.month : ℚ) *
            ((alloc.percentage : ℚ) / 100)
        sum + hours * r.defaultHourlyRate
      | _, _ => sum)
    0

/-- Insert a month into a list sorted by (year, month). -/
def insertMonth (a : MonthId) : List MonthId → List MonthId
  | [] => [a]
  | b :: l =>
    if a.year < b.year || (a.year == b.year && a.month ≤ b.month) then
      a :: b :: l
    else b :: insertMonth a l

/-- `Array.from(new Set(months)).sort()`: for zero-padded `"YYYY-MM"`
strings the string sort is exactly the (year, month) lexicographic
sort modelled here. -/
def sortMonths (l : List MonthId) : List MonthId :=
  l.foldr insertMonth []

/-- The per-month cost accumulation inside the dashboard's
`financialData` memo: filter the month's allocations and add
`hoursInMonth * (percentage / 100) * rate` for each allocation whose
member and role both resolve. -/
def monthCost (allocations : List Allocation) (members : List TeamMember)
    (roles : List Role) (mo : MonthId) : ℚ :=
  (allocations.filter (fun a => a.month == mo)).foldl
    (fun totalCost alloc =>
      let member := members.find? (fun mb => mb.id == alloc.memberId)
      let role : Option Role := match member with
        | some mb => roles.find? (fun r => r.id == mb.roleId)
        | none => none
      match member, role with
      | some _, some r =>
        totalCost + ((getBusinessHoursInMonth mo : ℚ) *
          ((alloc.percentage : ℚ) / 100)) * r.defaultHourlyRate
      | _, _ => totalCost)
    0

/-- One row of the dashboard's financial series.  The source formats the
month through `getMonthName` for display; the identifier is kept raw
here. -/
structure FinancialEntry where
  month : MonthId
  cost : ℚ
  revenue : ℚ
  hours : Nat
deriving DecidableEq, Repr

/-- The dashboard's `financialData` memo: distinct months of the
allocation set, sorted ascending, each mapped to its total cost, the
1.3× mock revenue, and the month's business hours. -/
def financialData (allocations : List Allocation) (members : List TeamMember)
    (roles : List Role) : List FinancialEntry :=
  let months := sortMonths (allocations.map (·.month)).dedup
  months.map (fun mo =>
    { month := mo
      cost := monthCost allocations members roles mo
      revenue := monthCost allocations members roles mo * (13 / 10 : ℚ)
      hours := getBusinessHoursInMonth mo })

/-- The per-person-per-month total allocation of the over-allocation
pre-check in `analyzeResourceForecast`:
`allocations.filter(a => a.memberId === id && a.month === month)
  .reduce((sum, a) => sum + a.percentage, 0)`. -/
def personMonthTotal (allocations : List Allocation) (memberId : String)
    (mo : MonthId) : Int :=
  (allocations.filter (fun a => a.memberId == memberId && a.month == mo)).foldl
    (fun sum a => sum + a.percentage) 0

/-- One structured over-allocation finding.  The source renders it as
the display string `` `${name} is at ${total}% in ${month}` ``; the
three interpolated fields are kept structured here. -/
structure OverAllocationFinding where
  personName : String
  month : MonthId
  total : Int
deriving DecidableEq, Repr

/-- The over-allocation pre-check of `analyzeResourceForecast`: for every
member and every distinct month present in the allocation set, emit a
finding when the member's total for that month exceeds 100. -/
def overAllocationFindings (members : List TeamMember)
    (allocations : List Allocation) : List OverAllocationFinding :=
  let uniqueMonths := sortMonths (allocations.map (·.month)).dedup
  members.flatMap (fun member =>
    uniqueMonths.filterMap (fun mo =>
      let totalAlloc := personMonthTotal allocations member.id mo
      if totalAlloc > 100 then some ⟨member.name, mo, totalAlloc⟩ else none))

/-! ## Store invariant

The well-formedness the running application maintains: record ids stay
below the fresh-id counter (UUIDs never collide), ids identify records,
and at most one record exists per (project, member, month) key. -/

/-- All record ids lie below the fresh-id counter. -/
def IdsBounded (l : List Allocation) (n : Nat) : Prop :=
  ∀ a ∈ l, a.id < n

/-- Ids identify records. -/
def IdsUnique (l : List Allocation) : Prop :=
  ∀ a ∈ l, ∀ b ∈ l, a.id = b.id → a = b

/-- At most one record per (project, member, month) key. -/
def KeysUnique (l : List Allocation) : Prop :=
  ∀ a ∈ l, ∀ b ∈ l,
    a.projectId = b.projectId → a.memberId = b.memberId →
    a.month = b.month → a = b

/-- Store well-formedness. -/
def StoreInv (s : GridState) : Prop :=
  IdsBounded s.allocations s.nextId ∧
  IdsUnique s.allocations ∧
  KeysUnique s.allocations

instance (s : GridState) : Decidable (StoreInv s) := by
  unfold StoreInv IdsBounded IdsUnique KeysUnique
  infer_instance

/-! ## List-level helper lemmas for the store operations -/

theorem allocMatches_iff {p m : String} {mo : MonthId} {a : Allocation} :
    allocMatches p m mo a = true ↔
      a.projectId = p ∧ a.memberId = m ∧ a.month = mo := by
  simp [allocMatches, Bool.and_eq_true, and_assoc]

theorem find?_map_update (l : List Allocation) (q : Allocation → Bool)
    (ex a' : Allocation) (hid : a'.id = ex.id)
    (hfind : l.find? q = some ex) (ha' : q a' = true) :
    (l.map (fun x => if x.id == a'.id then a' else x)).find? q = some a' := by
  induction l with
  | nil => simp at hfind
  | cons x xs ih =>
    simp only [List.map_cons]
    by_cases hq : q x = true
    · rw [List.find?_cons_of_pos _ hq] at hfind
      obtain rfl : x = ex := by injection hfind
      rw [if_pos (by simp [hid])]
      exact List.find?_cons_of_pos _ ha'
    · rw [List.find?_cons_of_neg _ hq] at hfind
      by_cases hix : (x.id == a'.id) = true
      · rw [if_pos hix]
        exact List.find?_cons_of_pos _ ha'
      · rw [if_neg hix]
        rw [List.find?_cons_of_neg _ hq]
        exact ih hfind

theorem find?_append_single_pos (l : List Allocation) (q : Allocation → Bool)
    (a : Allocation) (hnone : l.find? q = none) (ha : q a = true) :
    (l ++ [a]).find? q = some a := by
  induction l with
  | nil => exact List.find?_cons_of_pos _ ha
  | cons x xs ih =>
    rw [List.find?_eq_none] at hnone
    have hx : ¬ q x = true := hnone x (by simp)
    rw [List.cons_append, List.find?_cons_of_neg _ hx]
    exact ih (List.find?_eq_none.mpr fun y hy => hnone y (by simp [hy]))

theorem find?_append_single_neg (l : List Allocation) (q : Allocation → Bool)
    (a : Allocation) (ha : ¬ q a = true) :
    (l ++ [a]).find? q = l.find? q := by
  induction l with
  | nil =>
    rw [List.nil_append]
    exact List.find?_cons_of_neg _ ha
  | cons x xs ih =>
    by_cases hx : q x = true
    · rw [List.cons_append, List.find?_cons_of_pos _ hx,
        List.find?_cons_of_pos _ hx]
    · rw [List.cons_append, List.find?_cons_of_neg _ hx,
        List.find?_cons_of_neg _ hx, ih]

theorem find?_filter_removed_none (l : List Allocation) (q : Allocation → Bool)
    (ex : Allocation) (huniq : ∀ x ∈ l, q x = true → x = ex) :
    (l.filter (fun x => x.id != ex.id)).find? q = none := by
  rw [List.find?_eq_none]
  intro x hx
  rw [List.mem_filter] at hx
  intro hq
  have := huniq x hx.1 hq
  subst this
  simp at hx

theorem find?_filter_keep (l : List Allocation) (q r : Allocation → Bool)
    (h : ∀ x ∈ l, r x = false → ¬ q x = true) :
    (l.filter r).find? q = l.find? q := by
  induction l with
  | nil => rfl
  | cons x xs ih =>
    have ihx := ih fun y hy => h y (by simp [hy])
    by_cases hr : r x = true
    · rw [List.filter_cons_of_pos hr]
      by_cases hq : q x = true
      · rw [List.find?_cons_of_pos _ hq, List.find?_cons_of_pos _ hq]
      · rw [List.find?_cons_of_neg _ hq, List.find?_cons_of_neg _ hq, ihx]
    · rw [List.filter_cons_of_neg hr]
      have hq : ¬ q x = true := h x (by simp) (by simpa using hr)
      rw [List.find?_cons_of_neg _ hq, ihx]

theorem find?_map_frame (l : List Allocation) (q : Allocation → Bool)
    (ex a' : Allocation) (hids : ∀ x ∈ l, x.id = ex.id → x = ex)
    (hid : a'.id = ex.id) (hex : ¬ q ex = true) (ha' : ¬ q a' = true) :
    (l.map (fun x => if x.id == a'.id then a' else x)).find? q = l.find? q := by
  induction l with
  | nil => rfl
  | cons x xs ih =>
    have ihx := ih fun y hy => hids y (by simp [hy])
    simp only [List.map_cons]
    by_cases hix : (x.id == a'.id) = true
    · have hxex : x = ex := hids x (by simp) (by rw [← hid]; exact beq_iff_eq.mp hix)
      rw [if_pos hix, List.find?_cons_of_neg _ ha', ihx,
        hxex, List.find?_cons_of_neg _ hex]
    · rw [if_neg hix]
      by_cases hq : q x = true
      · rw [List.find?_cons_of_pos _ hq, List.find?_cons_of_pos _ hq]
      · rw [List.find?_cons_of_neg _ hq, List.find?_cons_of_neg _ hq, ihx]

/-! ## Case lemmas for `updateAllocationValue` -/

theorem updAV_pos_some (p m : String) (mo : MonthId) (v : Int) (s : GridState)
    (ex : Allocation) (hv : v > 0)
    (hfind : findAllocation s.allocations p m mo = some ex) :
    updateAllocationValue p m mo v s =
      if ex.percentage != v then
        { s with allocations :=
            updateAllocation { ex with percentage := v } s.allocations }
      else s := by
  simp only [updateAllocationValue, hfind, if_pos hv]

theorem updAV_pos_none (p m : String) (mo : MonthId) (v : Int) (s : GridState)
    (hv : v > 0) (hfind : findAllocation s.allocations p m mo = none) :
    updateAllocationValue p m mo v s =
      { s with
        allocations := addAllocation ⟨s.nextId, p, m, mo, v⟩ s.allocations,
        nextId := s.nextId + 1 } := by
  simp only [updateAllocationValue, hfind, if_pos hv]

theorem updAV_nonpos_some (p m : String) (mo : MonthId) (v : Int)
    (s : GridState) (ex : Allocation) (hv : ¬ v > 0)
    (hfind : findAllocation s.allocations p m mo = some ex) :
    updateAllocationValue p m mo v s =
      { s with allocations := deleteAllocation ex.id s.allocations } := by
  simp only [updateAllocationValue, hfind, if_neg hv]

theorem updAV_nonpos_none (p m : String) (mo : MonthId) (v : Int)
    (s : GridState) (hv : ¬ v > 0)
    (hfind : findAllocation s.allocations p m mo = none) :
    updateAllocationValue p m mo v s = s := by
  simp only [updateAllocationValue, hfind, if_neg hv]

/-- `updateAllocationValue` touches only the allocation list and the
fresh-id counter. -/
theorem updAV_ui (p m : String) (mo : MonthId) (v : Int) (s : GridState) :
    (updateAllocationValue p m mo v s).drag = s.drag ∧
    (updateAllocationValue p m mo v s).editingCell = s.editingCell ∧
    (updateAllocationValue p m mo v s).editValue = s.editValue := by
  by_cases hv : v > 0
  · cases hfind : findAllocation s.allocations p m mo with
    | some ex =>
      rw [updAV_pos_some p m mo v s ex hv hfind]
      split <;> exact ⟨rfl, rfl, rfl⟩
    | none =>
      rw [updAV_pos_none p m mo v s hv hfind]
      exact ⟨rfl, rfl, rfl⟩
  · cases hfind : findAllocation s.allocations p m mo with
    | some ex =>
      rw [updAV_nonpos_some p m mo v s ex hv hfind]
      exact ⟨rfl, rfl, rfl⟩
    | none =>
      rw [updAV_nonpos_none p m mo v s hv hfind]
      exact ⟨rfl, rfl, rfl⟩

/-! ## Semantic lemmas for `updateAllocationValue` -/

theorem allocMatches_of_find (l : List Allocation) (p m : String)
    (mo : MonthId) (ex : Allocation) (h : findAllocation l p m mo = some ex) :
    ex.projectId = p ∧ ex.memberId = m ∧ ex.month = mo :=
  allocMatches_iff.mp (List.find?_some h)

theorem mem_of_find (l : List Allocation) (p m : String) (mo : MonthId)
    (ex : Allocation) (h : findAllocation l p m mo = some ex) : ex ∈ l :=
  List.mem_of_find?_eq_some h

theorem not_allocMatches_of_ne (p m q mq : String) (mo moq : MonthId)
    (x : Allocation) (hx : x.projectId = p ∧ x.memberId = m ∧ x.month = mo)
    (hne : ¬(q = p ∧ mq = m ∧ moq = mo)) :
    ¬ allocMatches q mq moq x = true := by
  intro hmatch
  obtain ⟨h1, h2, h3⟩ := allocMatches_iff.mp hmatch
  exact hne ⟨by rw [← h1, hx.1], by rw [← h2, hx.2.1], by rw [← h3, hx.2.2]⟩

/-- The written cell reads back `v` when `v` is positive and reads back
empty otherwise. -/
theorem cellValue_updAV_self (p m : String) (mo : MonthId) (v : Int)
    (s : GridState) (hkeys : KeysUnique s.allocations) :
    cellValue (updateAllocationValue p m mo v s) p m mo =
      if v > 0 then v else 0 := by
  by_cases hv : v > 0
  · rw [if_pos hv]
    cases hfind : findAllocation s.allocations p m mo with
    | some ex =>
      rw [updAV_pos_some p m mo v s ex hv hfind]
      obtain ⟨h1, h2, h3⟩ := allocMatches_of_find _ _ _ _ _ hfind
      by_cases hch : (ex.percentage != v) = true
      · rw [if_pos hch]
        unfold cellValue findAllocation updateAllocation
        rw [find?_map_update s.allocations _ ex { ex with percentage := v }
          rfl hfind (allocMatches_iff.mpr ⟨h1, h2, h3⟩)]
      · rw [if_neg hch]
        have hpv : ex.percentage = v := by simpa using hch
        unfold cellValue
        rw [hfind]
        exact hpv
    | none =>
      rw [updAV_pos_none p m mo v s hv hfind]
      unfold cellValue findAllocation addAllocation
      rw [find?_append_single_pos s.allocations _ _ hfind
        (allocMatches_iff.mpr ⟨rfl, rfl, rfl⟩)]
  · rw [if_neg hv]
    cases hfind : findAllocation s.allocations p m mo with
    | some ex =>
      rw [updAV_nonpos_some p m mo v s ex hv hfind]
      obtain ⟨h1, h2, h3⟩ := allocMatches_of_find _ _ _ _ _ hfind
      have hex : ex ∈ s.allocations := mem_of_find _ _ _ _ _ hfind
      unfold cellValue findAllocation deleteAllocation
      rw [find?_filter_removed_none s.allocations _ ex ?huniq]
      intro x hx hmatch
      obtain ⟨g1, g2, g3⟩ := allocMatches_iff.mp hmatch
      exact hkeys x hx ex hex (g1.trans h1.symm) (g2.trans h2.symm)
        (g3.trans h3.symm)
    | none =>
      rw [updAV_nonpos_none p m mo v s hv hfind]
      unfold cellValue
      rw [hfind]

/-- Writing a non-positive value leaves no record at the cell's key. -/
theorem find_updAV_zero (p m : String) (mo : MonthId) (v : Int)
    (s : GridState) (hkeys : KeysUnique s.allocations) (hv : ¬ v > 0) :
    findAllocation (updateAllocationValue p m mo v s).allocations p m mo =
      none := by
  cases hfind : findAllocation s.allocations p m mo with
  | some ex =>
    rw [updAV_nonpos_some p m mo v s ex hv hfind]
    obtain ⟨h1, h2, h3⟩ := allocMatches_of_find _ _ _ _ _ hfind
    have hex : ex ∈ s.allocations := mem_of_find _ _ _ _ _ hfind
    unfold findAllocation deleteAllocation
    rw [find?_filter_removed_none s.allocations _ ex ?huniq]
    intro x hx hmatch
    obtain ⟨g1, g2, g3⟩ := allocMatches_iff.mp hmatch
    exact hkeys x hx ex hex (g1.trans h1.symm) (g2.trans h2.symm)
      (g3.trans h3.symm)
  | none =>
    rw [updAV_nonpos_none p m mo v s hv hfind]
    exact hfind

/-- A write to one cell leaves every other cell's lookup unchanged. -/
theorem find_updAV_other (p m : String) (mo : MonthId) (v : Int)
    (s : GridState) (hids : IdsUnique s.allocations)
    (q mq : String) (moq : MonthId) (hne : ¬(q = p ∧ mq = m ∧ moq = mo)) :
    findAllocation (updateAllocationValue p m mo v s).allocations q mq moq =
      findAllocation s.allocations q mq moq := by
  by_cases hv : v > 0
  · cases hfind : findAllocation s.allocations p m mo with
    | some ex =>
      rw [updAV_pos_some p m mo v s ex hv hfind]
      obtain ⟨h1, h2, h3⟩ := allocMatches_of_find _ _ _ _ _ hfind
      have hex : ex ∈ s.allocations := mem_of_find _ _ _ _ _ hfind
      by_cases hch : (ex.percentage != v) = true
      · rw [if_pos hch]
        unfold findAllocation updateAllocation
        exact find?_map_frame s.allocations _ ex { ex with percentage := v }
          (fun x hx hxid => hids x hx ex hex hxid) rfl
          (not_allocMatches_of_ne p m q mq mo moq ex ⟨h1, h2, h3⟩ hne)
          (not_allocMatches_of_ne p m q mq mo moq _ ⟨h1, h2, h3⟩ hne)
      · rw [if_neg hch]
    | none =>
      rw [updAV_pos_none p m mo v s hv hfind]
      unfold findAllocation addAllocation
      exact find?_append_single_neg s.allocations _ _
        (not_allocMatches_of_ne p m q mq mo moq _ ⟨rfl, rfl, rfl⟩ hne)
  · cases hfind : findAllocation s.allocations p m mo with
    | some ex =>
      rw [updAV_nonpos_some p m mo v s ex hv hfind]
      obtain ⟨h1, h2, h3⟩ := allocMatches_of_find _ _ _ _ _ hfind
      have hex : ex ∈ s.allocations := mem_of_find _ _ _ _ _ hfind
      unfold findAllocation deleteAllocation
      refine find?_filter_keep s.allocations _ _ (fun x hx hxr => ?_)
      have hxid : x.id = ex.id := by simpa using hxr
      rw [hids x hx ex hex hxid]
      exact not_allocMatches_of_ne p m q mq mo moq ex ⟨h1, h2, h3⟩ hne
    | none =>
      rw [updAV_nonpos_none p m mo v s hv hfind]

/-- Every record after a write is an old record or a freshly written
positive record at the written key. -/
theorem mem_updAV (p m : String) (mo : MonthId) (v : Int) (s : GridState)
    (a : Allocation) (ha : a ∈ (updateAllocationValue p m mo v s).allocations) :
    a ∈ s.allocations ∨
      (v > 0 ∧ a.percentage = v ∧ a.projectId = p ∧ a.memberId = m ∧
        a.month = mo) := by
  by_cases hv : v > 0
  · cases hfind : findAllocation s.allocations p m mo with
    | some ex =>
      rw [updAV_pos_some p m mo v s ex hv hfind] at ha
      obtain ⟨h1, h2, h3⟩ := allocMatches_of_find _ _ _ _ _ hfind
      by_cases hch : (ex.percentage != v) = true
      · rw [if_pos hch] at ha
        simp only [updateAllocation, List.mem_map] at ha
        obtain ⟨x, hx, hfx⟩ := ha
        by_cases hix : (x.id == Allocation.id { ex with percentage := v }) = true
        · rw [if_pos hix] at hfx
          exact Or.inr ⟨hv, by rw [← hfx], by rw [← hfx]; exact h1,
            by rw [← hfx]; exact h2, by rw [← hfx]; exact h3⟩
        · rw [if_neg hix] at hfx
          exact Or.inl (hfx ▸ hx)
      · rw [if_neg hch] at ha
        exact Or.inl ha
    | none =>
      rw [updAV_pos_none p m mo v s hv hfind] at ha
      simp only [addAllocation, List.mem_append, List.mem_singleton] at ha
      rcases ha with ha | rfl
      · exact Or.inl ha
      · exact Or.inr ⟨hv, rfl, rfl, rfl, rfl⟩
  · cases hfind : findAllocation s.allocations p m mo with
    | some ex =>
      rw [updAV_nonpos_some p m mo v s ex hv hfind] at ha
      exact Or.inl (List.mem_of_mem_filter ha)
    | none =>
      rw [updAV_nonpos_none p m mo v s hv hfind] at ha
      exact Or.inl ha

/-- A record of a different row survives a write unchanged. -/
theorem mem_updAV_of_ne_row (p m : String) (mo : MonthId) (v : Int)
    (s : GridState) (hids : IdsUnique s.allocations) (b : Allocation)
    (hb : b ∈ s.allocations) (hrow : ¬(b.projectId = p ∧ b.memberId = m)) :
    b ∈ (updateAllocationValue p m mo v s).allocations := by
  by_cases hv : v > 0
  · cases hfind : findAllocation s.allocations p m mo with
    | some ex =>
      rw [updAV_pos_some p m mo v s ex hv hfind]
      obtain ⟨h1, h2, h3⟩ := allocMatches_of_find _ _ _ _ _ hfind
      have hex : ex ∈ s.allocations := mem_of_find _ _ _ _ _ hfind
      have hbne : ¬ (b.id == Allocation.id { ex with percentage := v }) = true := by
        intro hid
        have : b = ex := hids b hb ex hex (by simpa using hid)
        exact hrow ⟨this ▸ h1, this ▸ h2⟩
      by_cases hch : (ex.percentage != v) = true
      · rw [if_pos hch]
        simp only [updateAllocation, List.mem_map]
        exact ⟨b, hb, by rw [if_neg hbne]⟩
      · rw [if_neg hch]; exact hb
    | none =>
      rw [updAV_pos_none p m mo v s hv hfind]
      simp only [addAllocation, List.mem_append]
      exact Or.inl hb
  · cases hfind : findAllocation s.allocations p m mo with
    | some ex =>
      rw [updAV_nonpos_some p m mo v s ex hv hfind]
      obtain ⟨h1, h2, h3⟩ := allocMatches_of_find _ _ _ _ _ hfind
      have hex : ex ∈ s.allocations := mem_of_find _ _ _ _ _ hfind
      have hbne : (b.id != ex.id) = true := by
        simp only [bne_iff_ne, ne_eq]
        intro hid
        have : b = ex := hids b hb ex hex hid
        exact hrow ⟨this ▸ h1, this ▸ h2⟩
      exact List.mem_filter.mpr ⟨hb, hbne⟩
    | none =>
      rw [updAV_nonpos_none p m mo v s hv hfind]
      exact hb

/-- The writer never shrinks the fresh-id counter. -/
theorem nextId_updAV_le (p m : String) (mo : MonthId) (v : Int)
    (s : GridState) : s.nextId ≤ (updateAllocationValue p m mo v s).nextId := by
  by_cases hv : v > 0
  · cases hfind : findAllocation s.allocations p m mo with
    | some ex =>
      rw [updAV_pos_some p m mo v s ex hv hfind]
      split <;> simp
    | none =>
      rw [updAV_pos_none p m mo v s hv hfind]
      simp
  · cases hfind : findAllocation s.allocations p m mo with
    | some ex => rw [updAV_nonpos_some p m mo v s ex hv hfind]
    | none => rw [updAV_nonpos_none p m mo v s hv hfind]

/-- `updateAllocationValue` preserves store well-formedness. -/
theorem storeInv_updAV (p m : String) (mo : MonthId) (v : Int)
    (s : GridState) (h : StoreInv s) :
    StoreInv (updateAllocationValue p m mo v s) := by
  obtain ⟨hbound, hids, hkeys⟩ := h
  by_cases hv : v > 0
  · cases hfind : findAllocation s.allocations p m mo with
    | some ex =>
      rw [updAV_pos_some p m mo v s ex hv hfind]
      obtain ⟨h1, h2, h3⟩ := allocMatches_of_find _ _ _ _ _ hfind
      have hex : ex ∈ s.allocations := mem_of_find _ _ _ _ _ hfind
      by_cases hch : (ex.percentage != v) = true
      · rw [if_pos hch]
        set a' : Allocation := { ex with percentage := v } with ha'
        have hmem : ∀ y, y ∈ updateAllocation a' s.allocations →
            y = a' ∨ (y ∈ s.allocations ∧ y.id ≠ ex.id) := by
          intro y hy
          simp only [updateAllocation, List.mem_map] at hy
          obtain ⟨x, hx, hfx⟩ := hy
          by_cases hix : (x.id == a'.id) = true
          · rw [if_pos hix] at hfx; exact Or.inl hfx.symm
          · rw [if_neg hix] at hfx
            refine Or.inr ⟨hfx ▸ hx, ?_⟩
            rw [← hfx]
            simpa [ha'] using hix
        refine ⟨?_, ?_, ?_⟩
        · intro y hy
          rcases hmem y hy with rfl | ⟨hy', _⟩
          · exact hbound ex hex
          · exact hbound y hy'
        · intro y hy z hz hid
          rcases hmem y hy with rfl | ⟨hy', hyne⟩ <;>
            rcases hmem z hz with rfl | ⟨hz', hzne⟩
          · rfl
          · exact absurd (hid.symm) (by simpa [ha'] using hzne)
          · exact absurd hid (by simpa [ha'] using hyne)
          · exact hids y hy' z hz' hid
        · intro y hy z hz k1 k2 k3
          rcases hmem y hy with rfl | ⟨hy', hyne⟩ <;>
            rcases hmem z hz with rfl | ⟨hz', hzne⟩
          · rfl
          · exact absurd (hkeys z hz' ex hex (by simpa [ha'] using k1.symm)
              (by simpa [ha'] using k2.symm) (by simpa [ha'] using k3.symm))
              (fun hzex => hzne (by rw [hzex]))
          · exact absurd (hkeys y hy' ex hex (by simpa [ha'] using k1)
              (by simpa [ha'] using k2) (by simpa [ha'] using k3))
              (fun hyex => hyne (by rw [hyex]))
          · exact hids y hy' z hz' ((hids y hy' z hz'
              (hkeys y hy' z hz' k1 k2 k3 ▸ rfl)) ▸ rfl) ▸
              hkeys y hy' z hz' k1 k2 k3
      · rw [if_neg hch]
        exact ⟨hbound, hids, hkeys⟩
    | none =>
      rw [updAV_pos_none p m mo v s hv hfind]
      have hnomatch : ∀ x ∈ s.allocations, ¬ allocMatches p m mo x = true :=
        List.find?_eq_none.mp hfind
      have hmem : ∀ y, y ∈ addAllocation ⟨s.nextId, p, m, mo, v⟩ s.allocations →
          y ∈ s.allocations ∨ y = ⟨s.nextId, p, m, mo, v⟩ := by
        intro y hy
        simpa [addAllocation] using hy
      refine ⟨?_, ?_, ?_⟩
      · intro y hy
        rcases hmem y hy with hy' | rfl
        · exact Nat.lt_succ_of_lt (hbound y hy')
        · exact Nat.lt_succ_self _
      · intro y hy z hz hid
        rcases hmem y hy with hy' | rfl <;> rcases hmem z hz with hz' | rfl
        · exact hids y hy' z hz' hid
        · exact absurd hid (Nat.ne_of_lt (hbound y hy'))
        · exact absurd hid.symm (Nat.ne_of_lt (hbound z hz'))
        · rfl
      · intro y hy z hz k1 k2 k3
        rcases hmem y hy with hy' | rfl <;> rcases hmem z hz with hz' | rfl
        · exact hkeys y hy' z hz' k1 k2 k3
        · exact absurd (allocMatches_iff.mpr ⟨k1, k2, k3⟩) (hnomatch y hy')
        · exact absurd (allocMatches_iff.mpr ⟨k1.symm, k2.symm, k3.symm⟩)
            (hnomatch z hz')
        · rfl
  · cases hfind : findAllocation s.allocations p m mo with
    | some ex =>
      rw [updAV_nonpos_some p m mo v s ex hv hfind]
      refine ⟨?_, ?_, ?_⟩
      · intro y hy
        exact hbound y (List.mem_of_mem_filter hy)
      · intro y hy z hz
        exact hids y (List.mem_of_mem_filter hy) z (List.mem_of_mem_filter hz)
      · intro y hy z hz
        exact hkeys y (List.mem_of_mem_filter hy) z (List.mem_of_mem_filter hz)
    | none =>
      rw [updAV_nonpos_none p m mo v s hv hfind]
      exact ⟨hbound, hids, hkeys⟩

theorem updAV_drag (p m : String) (mo : MonthId) (v : Int) (s : GridState) :
    (updateAllocationValue p m mo v s).drag = s.drag :=
  (updAV_ui p m mo v s).1

theorem updAV_editingCell (p m : String) (mo : MonthId) (v : Int)
    (s : GridState) :
    (updateAllocationValue p m mo v s).editingCell = s.editingCell :=
  (updAV_ui p m mo v s).2.1

theorem updAV_editValue (p m : String) (mo : MonthId) (v : Int)
    (s : GridState) :
    (updateAllocationValue p m mo v s).editValue = s.editValue :=
  (updAV_ui p m mo v s).2.2

/-! ## Case lemmas for the mouse handlers -/

theorem enter_inactive (p m : String) (mo : MonthId) (s : GridState)
    (h : s.drag.active = false) : handleCellMouseEnter p m mo s = s := by
  simp [handleCellMouseEnter, h]

theorem enter_other_row (p m : String) (mo : MonthId) (s : GridState)
    (hact : s.drag.active = true)
    (h : ¬(s.drag.projectId = p ∧ s.drag.memberId = m)) :
    handleCellMouseEnter p m mo s = s := by
  have : (s.drag.projectId != p || s.drag.memberId != m) = true := by
    rcases not_and_or.mp h with h' | h' <;> simp [h']
  simp [handleCellMouseEnter, hact, this]

theorem enter_moved_painted (p m : String) (mo : MonthId) (s : GridState)
    (hact : s.drag.active = true) (hproj : s.drag.projectId = p)
    (hmemb : s.drag.memberId = m) (hmoved : s.drag.hasMoved = true)
    (hmem : (p, m, mo) ∈ s.drag.paintedCells) :
    handleCellMouseEnter p m mo s = s := by
  simp [handleCellMouseEnter, hact, hproj, hmemb, hmoved, hmem]

theorem enter_moved_unpainted (p m : String) (mo : MonthId) (s : GridState)
    (hact : s.drag.active = true) (hproj : s.drag.projectId = p)
    (hmemb : s.drag.memberId = m) (hmoved : s.drag.hasMoved = true)
    (hmem : (p, m, mo) ∉ s.drag.paintedCells) :
    handleCellMouseEnter p m mo s =
      { updateAllocationValue p m mo s.drag.paintValue s with
        drag := { s.drag with
          paintedCells := (p, m, mo) :: s.drag.paintedCells } } := by
  simp [handleCellMouseEnter, hact, hproj, hmemb, hmoved, hmem, updAV_drag]

theorem enter_start_cell (p m : String) (mo : MonthId) (s : GridState)
    (hact : s.drag.active = true) (hproj : s.drag.projectId = p)
    (hmemb : s.drag.memberId = m) (hmoved : s.drag.hasMoved = false)
    (hmo : mo = s.drag.startMonth) :
    handleCellMouseEnter p m mo s = s := by
  simp [handleCellMouseEnter, hact, hproj, hmemb, hmoved, hmo]

theorem enter_first_move (p m : String) (mo : MonthId) (s : GridState)
    (hact : s.drag.active = true) (hproj : s.drag.projectId = p)
    (hmemb : s.drag.memberId = m) (hmoved : s.drag.hasMoved = false)
    (hpainted : s.drag.paintedCells = []) (hmo : mo ≠ s.drag.startMonth) :
    handleCellMouseEnter p m mo s =
      (let sA := { updateAllocationValue p m s.drag.startMonth
          s.drag.paintValue
          { s with drag := { s.drag with hasMoved := true } } with
        drag := { s.drag with
          hasMoved := true
          paintedCells := [(p, m, s.drag.startMonth)] } }
      { updateAllocationValue p m mo s.drag.paintValue sA with
        drag := { sA.drag with
          paintedCells := (p, m, mo) :: sA.drag.paintedCells } }) := by
  obtain ⟨alloc, nid, ⟨act, dp, dm, dsm, dsv, dpv, dhm, dpc⟩, ec, ev⟩ := s
  simp only at hact hproj hmemb hmoved hpainted hmo
  subst hact hproj hmemb hmoved hpainted
  simp [handleCellMouseEnter, hmo, updAV_drag]

theorem up_inactive (p m : String) (mo : MonthId) (cv : Int) (s : GridState)
    (h : s.drag.active = false) : handleCellMouseUp p m mo cv s = s := by
  simp [handleCellMouseUp, h]

theorem up_moved (p m : String) (mo : MonthId) (cv : Int) (s : GridState)
    (hact : s.drag.active = true) (hmoved : s.drag.hasMoved = true) :
    handleCellMouseUp p m mo cv s =
      { s with drag := { s.drag with active := false, paintedCells := [] } } := by
  simp [handleCellMouseUp, hact, hmoved]

theorem up_click (p m : String) (mo : MonthId) (cv : Int) (s : GridState)
    (hact : s.drag.active = true) (hmoved : s.drag.hasMoved = false) :
    handleCellMouseUp p m mo cv s =
      (let s1 := updateAllocationValue p m mo
        (if cv == 0 then 100 else if cv == 100 then 50 else 0) s
      { s1 with drag := { s1.drag with active := false, paintedCells := [] } }) := by
  simp [handleCellMouseUp, hact, hmoved]

theorem up_allocations_of_moved (p m : String) (mo : MonthId) (cv : Int)
    (s : GridState) (hmoved : s.drag.hasMoved = true) :
    (handleCellMouseUp p m mo cv s).allocations = s.allocations := by
  by_cases hact : s.drag.active = true
  · rw [up_moved p m mo cv s hact hmoved]
  · rw [up_inactive p m mo cv s (by simpa using hact)]

theorem globalUp_allocations (s : GridState) :
    (handleGlobalMouseUp s).allocations = s.allocations := by
  unfold handleGlobalMouseUp
  split <;> rfl

/-! ## Drag-gesture invariants -/

/-- Run a sequence of mouse-enter events (pointer motion during a
gesture). -/
def runEnters (s : GridState) (es : List (String × String × MonthId)) :
    GridState :=
  es.foldl (fun st e => handleCellMouseEnter e.1 e.2.1 e.2.2 st) s

/-- The months of the enter events that hit the gesture's row. -/
def rowMonths (p m : String) (es : List (String × String × MonthId)) :
    List MonthId :=
  es.filterMap (fun e => if e.1 = p ∧ e.2.1 = m then some e.2.2 else none)

/-- Mid-gesture state before any movement was detected: nothing has been
painted and the store is untouched. -/
structure StartInv (s₀ : GridState) (p m : String) (mo₀ : MonthId) (P : Int)
    (s : GridState) : Prop where
  active : s.drag.active = true
  proj : s.drag.projectId = p
  memb : s.drag.memberId = m
  start : s.drag.startMonth = mo₀
  paintVal : s.drag.paintValue = P
  notMoved : s.drag.hasMoved = false
  painted : s.drag.paintedCells = []
  allocEq : s.allocations = s₀.allocations
  nextIdEq : s.nextId = s₀.nextId

/-- Mid-gesture state once movement was detected.  `ms` collects the row
months entered so far; the painted set is exactly the start month plus
`ms`, every painted cell reads the paint value, and every other cell's
lookup — and every foreign-row record — is untouched. -/
structure MovedInv (s₀ : GridState) (p m : String) (mo₀ : MonthId) (P : Int)
    (ms : List MonthId) (s : GridState) : Prop where
  active : s.drag.active = true
  proj : s.drag.projectId = p
  memb : s.drag.memberId = m
  moved : s.drag.hasMoved = true
  paintVal : s.drag.paintValue = P
  paintedIff : ∀ k, k ∈ s.drag.paintedCells ↔
      (k.1 = p ∧ k.2.1 = m ∧ (k.2.2 = mo₀ ∨ k.2.2 ∈ ms))
  paintedVal : ∀ mo, mo = mo₀ ∨ mo ∈ ms → cellValue s p m mo = P
  frameFind : ∀ q mq moq, ¬(q = p ∧ mq = m ∧ (moq = mo₀ ∨ moq ∈ ms)) →
      findAllocation s.allocations q mq moq =
        findAllocation s₀.allocations q mq moq
  frameMem : ∀ b ∈ s₀.allocations, ¬(b.projectId = p ∧ b.memberId = m) →
      b ∈ s.allocations
  inv : StoreInv s

/-- `MovedInv` only depends on the month list through the membership of
`{mo₀} ∪ ms`. -/
theorem movedInv_congr (s₀ : GridState) (p m : String) (mo₀ : MonthId)
    (P : Int) (ms ms' : List MonthId) (s : GridState)
    (hiff : ∀ mo, (mo = mo₀ ∨ mo ∈ ms) ↔ (mo = mo₀ ∨ mo ∈ ms'))
    (h : MovedInv s₀ p m mo₀ P ms s) : MovedInv s₀ p m mo₀ P ms' s := by
  refine ⟨h.active, h.proj, h.memb, h.moved, h.paintVal, ?_, ?_, ?_,
    h.frameMem, h.inv⟩
  · intro k
    rw [h.paintedIff k]
    constructor
    · rintro ⟨h1, h2, h3⟩
      exact ⟨h1, h2, (hiff k.2.2).mp h3⟩
    · rintro ⟨h1, h2, h3⟩
      exact ⟨h1, h2, (hiff k.2.2).mpr h3⟩
  · intro mo hmo
    exact h.paintedVal mo ((hiff mo).mpr hmo)
  · intro q mq moq hne
    refine h.frameFind q mq moq (fun hc => hne ?_)
    exact ⟨hc.1, hc.2.1, (hiff moq).mp hc.2.2⟩

/-- A non-moving enter (foreign row, or the start cell itself) preserves
the pre-movement state unchanged. -/
theorem startInv_enter (s₀ : GridState) (p m : String) (mo₀ : MonthId)
    (P : Int) (s : GridState) (h : StartInv s₀ p m mo₀ P s)
    (q mq : String) (mo : MonthId) (hnm : ¬(q = p ∧ mq = m ∧ mo ≠ mo₀)) :
    handleCellMouseEnter q mq mo s = s := by
  by_cases hrow : q = p ∧ mq = m
  · obtain ⟨rfl, rfl⟩ := hrow
    have hmo : mo = mo₀ := by
      by_contra hmo
      exact hnm ⟨rfl, rfl, hmo⟩
    exact enter_start_cell q mq mo s h.active h.proj h.memb h.notMoved
      (hmo.trans h.start.symm)
  · refine enter_other_row q mq mo s h.active (fun hc => hrow ?_)
    exact ⟨h.proj ▸ hc.1.symm, h.memb ▸ hc.2.symm⟩

/-- Enters on a foreign row are ignored while moved as well. -/
theorem movedInv_enter_other (s₀ : GridState) (p m : String) (mo₀ : MonthId)
    (P : Int) (ms : List MonthId) (s : GridState)
    (h : MovedInv s₀ p m mo₀ P ms s) (q mq : String) (mo : MonthId)
    (hne : ¬(q = p ∧ mq = m)) :
    handleCellMouseEnter q mq mo s = s := by
  refine enter_other_row q mq mo s h.active (fun hc => hne ?_)
  exact ⟨h.proj ▸ hc.1.symm, h.memb ▸ hc.2.symm⟩

/-- One same-row enter while moved: the entered month joins the painted
set (idempotently) and the invariant is maintained. -/
theorem movedInv_enter_row (s₀ : GridState) (p m : String) (mo₀ : MonthId)
    (P : Int) (ms : List MonthId) (s : GridState) (hP : P = 0 ∨ P = 100)
    (h : MovedInv s₀ p m mo₀ P ms s) (mo : MonthId) :
    MovedInv s₀ p m mo₀ P (mo :: ms) (handleCellMouseEnter p m mo s) := by
  by_cases hmem : (p, m, mo) ∈ s.drag.paintedCells
  · rw [enter_moved_painted p m mo s h.active h.proj h.memb h.moved hmem]
    have hmo : mo = mo₀ ∨ mo ∈ ms := ((h.paintedIff _).mp hmem).2.2
    refine movedInv_congr s₀ p m mo₀ P ms (mo :: ms) s (fun mo' => ?_) h
    constructor
    · rintro (h' | h')
      · exact Or.inl h'
      · exact Or.inr (List.mem_cons_of_mem _ h')
    · rintro (h' | h')
      · exact Or.inl h'
      · rcases List.mem_cons.mp h' with rfl | h''
        · exact hmo
        · exact Or.inr h''
  · rw [enter_moved_unpainted p m mo s h.active h.proj h.memb h.moved hmem]
    have hnotold : ¬(mo = mo₀ ∨ mo ∈ ms) := by
      intro hc
      exact hmem ((h.paintedIff (p, m, mo)).mpr ⟨rfl, rfl, hc⟩)
    rw [h.paintVal]
    obtain ⟨hbound, hids, hkeys⟩ := h.inv
    have hinv : StoreInv s := ⟨hbound, hids, hkeys⟩
    refine ⟨h.active, h.proj, h.memb, h.moved, h.paintVal, ?_, ?_, ?_, ?_, ?_⟩
    · intro k
      show k ∈ (p, m, mo) :: s.drag.paintedCells ↔ _
      rw [List.mem_cons, h.paintedIff k]
      constructor
      · rintro (rfl | ⟨h1, h2, h3⟩)
        · exact ⟨rfl, rfl, Or.inr (List.mem_cons_self _ _)⟩
        · rcases h3 with h3 | h3
          · exact ⟨h1, h2, Or.inl h3⟩
          · exact ⟨h1, h2, Or.inr (List.mem_cons_of_mem _ h3)⟩
      · rintro ⟨h1, h2, h3⟩
        rcases h3 with h3 | h3
        · exact Or.inr ⟨h1, h2, Or.inl h3⟩
        · rcases List.mem_cons.mp h3 with h3 | h3
          · left
            obtain ⟨k1, k2, k3⟩ := k
            simp only at h1 h2 h3
            rw [h1, h2, h3]
          · exact Or.inr ⟨h1, h2, Or.inr h3⟩
    · intro mo' hmo'
      show cellValue (updateAllocationValue p m mo P s) p m mo' = P
      rcases eq_or_ne mo' mo with rfl | hne
      · rw [cellValue_updAV_self p m mo' P s hkeys]
        rcases hP with rfl | rfl
        · rfl
        · rfl
      · have hold : mo' = mo₀ ∨ mo' ∈ ms := by
          rcases hmo' with rfl | hmo'
          · exact Or.inl rfl
          · rcases List.mem_cons.mp hmo' with rfl | hmo'
            · exact absurd rfl hne
            · exact Or.inr hmo'
        unfold cellValue
        rw [show findAllocation (updateAllocationValue p m mo P s).allocations
            p m mo' = findAllocation s.allocations p m mo' from
          find_updAV_other p m mo P s hids p m mo'
            (fun hc => hne hc.2.2)]
        exact h.paintedVal mo' hold
    · intro q mq moq hne
      have hne' : ¬(q = p ∧ mq = m ∧ (moq = mo₀ ∨ moq ∈ ms)) := by
        intro hc
        exact hne ⟨hc.1, hc.2.1, by
          rcases hc.2.2 with h' | h'
          · exact Or.inl h'
          · exact Or.inr (List.mem_cons_of_mem _ h')⟩
      have hnemo : ¬(q = p ∧ mq = m ∧ moq = mo) := by
        intro hc
        exact hne ⟨hc.1, hc.2.1, Or.inr (hc.2.2 ▸ List.mem_cons_self _ _)⟩
      show findAllocation (updateAllocationValue p m mo P s).allocations
          q mq moq = _
      rw [find_updAV_other p m mo P s hids q mq moq hnemo]
      exact h.frameFind q mq moq hne'
    · intro b hb hrow
      show b ∈ (updateAllocationValue p m mo P s).allocations
      exact mem_updAV_of_ne_row p m mo P s hids b (h.frameMem b hb hrow) hrow
    · show StoreInv { updateAllocationValue p m mo P s with
        drag := { s.drag with paintedCells := (p, m, mo) :: s.drag.paintedCells } }
      have := storeInv_updAV p m mo P s hinv
      exact ⟨this.1, this.2.1, this.2.2⟩

/-- After the first movement is detected, the enter behaves exactly like
an enter on the already-moved intermediate state in which only the start
cell has been painted. -/
theorem enter_first_move_decompose (s₀ : GridState) (p m : String)
    (mo₀ : MonthId) (P : Int) (s : GridState)
    (h : StartInv s₀ p m mo₀ P s) (mo : MonthId) (hmo : mo ≠ mo₀) :
    handleCellMouseEnter p m mo s =
      handleCellMouseEnter p m mo
        { updateAllocationValue p m s.drag.startMonth s.drag.paintValue
            { s with drag := { s.drag with hasMoved := true } } with
          drag := { s.drag with
            hasMoved := true
            paintedCells := [(p, m, s.drag.startMonth)] } } := by
  have hmo' : mo ≠ s.drag.startMonth := h.start ▸ hmo
  have hact := h.active
  have hproj := h.proj
  have hmemb := h.memb
  have hmoved := h.notMoved
  have hpainted := h.painted
  clear h
  obtain ⟨alloc, nid, ⟨act, dp, dm, dsm, dsv, dpv, dhm, dpc⟩, ec, ev⟩ := s
  simp only at hact hproj hmemb hmoved hpainted hmo'
  subst hact hproj hmemb hmoved hpainted
  simp [handleCellMouseEnter, hmo', updAV_drag]

/-- Painting the start cell on first movement establishes the moved
invariant with an empty entered-month list. -/
theorem startInv_paint_start (s₀ : GridState) (p m : String) (mo₀ : MonthId)
    (P : Int) (s : GridState) (hP : P = 0 ∨ P = 100) (hs₀ : StoreInv s₀)
    (h : StartInv s₀ p m mo₀ P s) :
    MovedInv s₀ p m mo₀ P []
      { updateAllocationValue p m s.drag.startMonth s.drag.paintValue
          { s with drag := { s.drag with hasMoved := true } } with
        drag := { s.drag with
          hasMoved := true
          paintedCells := [(p, m, s.drag.startMonth)] } } := by
  rw [h.start, h.paintVal]
  have hinv_s : StoreInv s :=
    ⟨by rw [show s.allocations = s₀.allocations from h.allocEq,
        show s.nextId = s₀.nextId from h.nextIdEq]; exact hs₀.1,
      by rw [show s.allocations = s₀.allocations from h.allocEq]; exact hs₀.2.1,
      by rw [show s.allocations = s₀.allocations from h.allocEq]; exact hs₀.2.2⟩
  have hinvHM : StoreInv { s with drag := { s.drag with hasMoved := true } } :=
    ⟨hinv_s.1, hinv_s.2.1, hinv_s.2.2⟩
  have hinv1 : StoreInv (updateAllocationValue p m mo₀ P
      { s with drag := { s.drag with hasMoved := true } }) :=
    storeInv_updAV _ _ _ _ _ hinvHM
  refine ⟨h.active, h.proj, h.memb, rfl, h.paintVal, ?_, ?_, ?_, ?_, ?_⟩
  · intro k
    show k ∈ [(p, m, mo₀)] ↔ _
    rw [List.mem_singleton]
    constructor
    · rintro rfl
      exact ⟨rfl, rfl, Or.inl rfl⟩
    · rintro ⟨h1, h2, h3⟩
      rcases h3 with h3 | h3
      · obtain ⟨k1, k2, k3⟩ := k
        simp only at h1 h2 h3
        rw [h1, h2, h3]
      · exact absurd h3 (List.not_mem_nil _)
  · intro mo' hmo'
    have hmo₀ : mo' = mo₀ := by
      rcases hmo' with rfl | hmo'
      · rfl
      · exact absurd hmo' (List.not_mem_nil _)
    rw [hmo₀]
    show cellValue (updateAllocationValue p m mo₀ P
      { s with drag := { s.drag with hasMoved := true } }) p m mo₀ = P
    rw [cellValue_updAV_self p m mo₀ P _ hinvHM.2.2]
    rcases hP with rfl | rfl <;> rfl
  · intro q mq moq hne
    have hne' : ¬(q = p ∧ mq = m ∧ moq = mo₀) := by
      intro hc
      exact hne ⟨hc.1, hc.2.1, Or.inl hc.2.2⟩
    show findAllocation (updateAllocationValue p m mo₀ P
        { s with drag := { s.drag with hasMoved := true } }).allocations
        q mq moq = _
    rw [find_updAV_other p m mo₀ P _ hinvHM.2.1 q mq moq hne']
    show findAllocation s.allocations q mq moq = _
    rw [show s.allocations = s₀.allocations from h.allocEq]
  · intro b hb hrow
    show b ∈ (updateAllocationValue p m mo₀ P
      { s with drag := { s.drag with hasMoved := true } }).allocations
    refine mem_updAV_of_ne_row p m mo₀ P _ hinvHM.2.1 b ?_ hrow
    show b ∈ s.allocations
    rw [show s.allocations = s₀.allocations from h.allocEq]
    exact hb
  · exact ⟨hinv1.1, hinv1.2.1, hinv1.2.2⟩

/-- The first same-row enter at a new month takes the gesture from the
pre-movement state into the moved invariant with that month painted. -/
theorem startInv_enter_move (s₀ : GridState) (p m : String) (mo₀ : MonthId)
    (P : Int) (s : GridState) (hP : P = 0 ∨ P = 100) (hs₀ : StoreInv s₀)
    (h : StartInv s₀ p m mo₀ P s) (mo : MonthId) (hmo : mo ≠ mo₀) :
    MovedInv s₀ p m mo₀ P [mo] (handleCellMouseEnter p m mo s) := by
  rw [enter_first_move_decompose s₀ p m mo₀ P s h mo hmo]
  exact movedInv_enter_row s₀ p m mo₀ P [] _ hP
    (startInv_paint_start s₀ p m mo₀ P s hP hs₀ h) mo

/-- Processing enters preserves the moved invariant, accumulating the
row months entered. -/
theorem movedInv_runEnters (s₀ : GridState) (p m : String) (mo₀ : MonthId)
    (P : Int) (hP : P = 0 ∨ P = 100)
    (es : List (String × String × MonthId)) :
    ∀ ms s, MovedInv s₀ p m mo₀ P ms s →
      MovedInv s₀ p m mo₀ P (rowMonths p m es ++ ms) (runEnters s es) := by
  induction es with
  | nil =>
    intro ms s h
    simpa [rowMonths, runEnters] using h
  | cons e es ih =>
    intro ms s h
    obtain ⟨e1, e2, e3⟩ := e
    by_cases hrow : e1 = p ∧ e2 = m
    · obtain ⟨rfl, rfl⟩ := hrow
      have hstep := movedInv_enter_row s₀ e1 e2 mo₀ P ms s hP h e3
      have hrun := ih (e3 :: ms) (handleCellMouseEnter e1 e2 e3 s) hstep
      have hlist : rowMonths e1 e2 ((e1, e2, e3) :: es) =
          e3 :: rowMonths e1 e2 es := by
        simp [rowMonths]
      show MovedInv s₀ e1 e2 mo₀ P _
        (runEnters (handleCellMouseEnter e1 e2 e3 s) es)
      rw [hlist]
      refine movedInv_congr s₀ e1 e2 mo₀ P _ _ _ (fun mo' => ?_) hrun
      simp only [List.mem_append, List.mem_cons]
      tauto
    · have hskip := movedInv_enter_other s₀ p m mo₀ P ms s h e1 e2 e3 hrow
      have hlist : rowMonths p m ((e1, e2, e3) :: es) = rowMonths p m es := by
        simp [rowMonths, hrow]
      rw [hlist]
      show MovedInv s₀ p m mo₀ P _
        (runEnters (handleCellMouseEnter e1 e2 e3 s) es)
      rw [hskip]
      exact ih ms s h

/-- Before any movement, non-moving enters keep the gesture in the
pre-movement state. -/
theorem startInv_runEnters (s₀ : GridState) (p m : String) (mo₀ : MonthId)
    (P : Int) (es : List (String × String × MonthId)) :
    ∀ s, StartInv s₀ p m mo₀ P s →
      (∀ e ∈ es, ¬(e.1 = p ∧ e.2.1 = m ∧ e.2.2 ≠ mo₀)) →
      runEnters s es = s := by
  induction es with
  | nil =>
    intro s _ _
    rfl
  | cons e es ih =>
    intro s h hes
    have hskip := startInv_enter s₀ p m mo₀ P s h e.1 e.2.1 e.2.2
      (hes e (List.mem_cons_self _ _))
    show runEnters (handleCellMouseEnter e.1 e.2.1 e.2.2 s) es = s
    rw [hskip]
    exact ih s h (fun e' he' => hes e' (List.mem_cons_of_mem _ he'))

/-- Full gesture run: a pointer-down state followed by enters containing
at least one same-row movement lands in the moved invariant whose
painted months are the start month plus all row months entered. -/
theorem gesture_run (s₀ : GridState) (p m : String) (mo₀ : MonthId)
    (P : Int) (hP : P = 0 ∨ P = 100) (hs₀ : StoreInv s₀)
    (es : List (String × String × MonthId)) :
    ∀ s, StartInv s₀ p m mo₀ P s →
      (∃ e ∈ es, e.1 = p ∧ e.2.1 = m ∧ e.2.2 ≠ mo₀) →
      MovedInv s₀ p m mo₀ P (rowMonths p m es) (runEnters s es) := by
  induction es with
  | nil =>
    intro s _ hex
    obtain ⟨e, he, _⟩ := hex
    exact absurd he (List.not_mem_nil _)
  | cons e es ih =>
    intro s h hex
    by_cases hmove : e.1 = p ∧ e.2.1 = m ∧ e.2.2 ≠ mo₀
    · obtain ⟨h1, h2, h3⟩ := hmove
      have hstep : MovedInv s₀ p m mo₀ P [e.2.2]
          (handleCellMouseEnter e.1 e.2.1 e.2.2 s) := by
        obtain ⟨e1, e2, e3⟩ := e
        simp only at h1 h2 h3 ⊢
        rw [h1, h2]
        exact startInv_enter_move s₀ p m mo₀ P s hP hs₀ h e3 h3
      have hrun := movedInv_runEnters s₀ p m mo₀ P hP es [e.2.2] _ hstep
      refine movedInv_congr s₀ p m mo₀ P _ _ _ (fun mo' => ?_) hrun
      have hlist : rowMonths p m (e :: es) = e.2.2 :: rowMonths p m es := by
        obtain ⟨e1, e2, e3⟩ := e
        simp only at h1 h2
        simp [rowMonths, h1, h2]
      rw [hlist]
      simp only [List.mem_append, List.mem_cons, List.mem_singleton]
      tauto
    · have hskip := startInv_enter s₀ p m mo₀ P s h e.1 e.2.1 e.2.2 hmove
      have hex' : ∃ e' ∈ es, e'.1 = p ∧ e'.2.1 = m ∧ e'.2.2 ≠ mo₀ := by
        obtain ⟨e', he', hp⟩ := hex
        rcases List.mem_cons.mp he' with rfl | he'
        · exact absurd hp hmove
        · exact ⟨e', he', hp⟩
      have hrow : ¬(e.1 = p ∧ e.2.1 = m) ∨ e.2.2 = mo₀ := by
        by_cases hr : e.1 = p ∧ e.2.1 = m
        · right
          by_contra hne
          exact hmove ⟨hr.1, hr.2, hne⟩
        · exact Or.inl hr
      have : rowMonths p m (e :: es) =
          rowMonths p m es ∨
          rowMonths p m (e :: es) = mo₀ :: rowMonths p m es := by
        rcases hrow with hr | hr
        · left
          simp [rowMonths, hr]
        · by_cases hr' : e.1 = p ∧ e.2.1 = m
          · right
            simp [rowMonths, hr', hr]
          · left
            simp [rowMonths, hr']
      have hrun : MovedInv s₀ p m mo₀ P (rowMonths p m es)
          (runEnters s (e :: es)) := by
        show MovedInv s₀ p m mo₀ P _
          (runEnters (handleCellMouseEnter e.1 e.2.1 e.2.2 s) es)
        rw [hskip]
        exact ih s h hex'
      rcases this with heq | heq
      · rw [heq]
        exact hrun
      · rw [heq]
        refine movedInv_congr s₀ p m mo₀ P _ _ _ (fun mo' => ?_) hrun
        constructor
        · rintro (h' | h')
          · exact Or.inl h'
          · exact Or.inr (List.mem_cons_of_mem _ h')
        · rintro (h' | h')
          · exact Or.inl h'
          · rcases List.mem_cons.mp h' with rfl | h'
            · exact Or.inl rfl
            · exact Or.inr h'

/-! ## Store-content preservation across events -/

/-- `l'` extends `l` only by records with positive percentage. -/
def PosExtend (l l' : List Allocation) : Prop :=
  ∀ a ∈ l', a ∈ l ∨ 0 < a.percentage

theorem posExtend_refl (l : List Allocation) : PosExtend l l :=
  fun _ ha => Or.inl ha

theorem posExtend_trans {l l' l'' : List Allocation}
    (h1 : PosExtend l l') (h2 : PosExtend l' l'') : PosExtend l l'' := by
  intro a ha
  rcases h2 a ha with ha' | hpos
  · exact h1 a ha'
  · exact Or.inr hpos

theorem posExtend_filter (l : List Allocation) (q : Allocation → Bool) :
    PosExtend l (l.filter q) :=
  fun _ ha => Or.inl (List.mem_of_mem_filter ha)

theorem posExtend_updAV (p m : String) (mo : MonthId) (v : Int)
    (s : GridState) :
    PosExtend s.allocations (updateAllocationValue p m mo v s).allocations := by
  intro a ha
  rcases mem_updAV p m mo v s a ha with ha' | ⟨hv, hpv, _⟩
  · exact Or.inl ha'
  · exact Or.inr (hpv ▸ hv)

theorem posExtend_enter (p m : String) (mo : MonthId) (s : GridState) :
    PosExtend s.allocations (handleCellMouseEnter p m mo s).allocations := by
  obtain ⟨alloc, nid, ⟨act, dp, dm, dsm, dsv, dpv, dhm, dpc⟩, ec, ev⟩ := s
  show PosExtend alloc _
  cases act with
  | false =>
    simp only [handleCellMouseEnter, Bool.not_false, if_true]
    exact posExtend_refl _
  | true =>
    by_cases h2 : (dp != p || dm != m) = true
    · simp only [handleCellMouseEnter, Bool.not_true, Bool.false_eq_true,
        if_false, h2, if_true]
      exact posExtend_refl _
    · cases dhm with
      | true =>
        by_cases hc : dpc.contains (p, m, mo) = true
        · simp only [handleCellMouseEnter, h2, hc, Bool.not_true,
            Bool.false_eq_true, if_false, Bool.false_and, if_true]
          exact posExtend_refl _
        · simp only [handleCellMouseEnter, h2, hc, Bool.not_true,
            Bool.false_eq_true, if_false, Bool.false_and, Bool.not_false,
            if_true]
          exact posExtend_updAV _ _ _ _ _
      | false =>
        by_cases hm : (mo != dsm) = true
        · by_cases hc1 : dpc.contains (p, m, dsm) = true
          · by_cases hc2 : dpc.contains (p, m, mo) = true
            · simp only [handleCellMouseEnter, h2, hm, hc1, hc2,
                Bool.not_true, Bool.not_false, Bool.false_eq_true, if_false,
                Bool.true_and, if_true]
              exact posExtend_refl _
            · simp only [handleCellMouseEnter, h2, hm, hc1, hc2,
                Bool.not_true, Bool.not_false, Bool.false_eq_true, if_false,
                Bool.true_and, if_true]
              exact posExtend_updAV _ _ _ _ _
          · by_cases hc2 : dpc.contains (p, m, mo) = true
            · simp only [handleCellMouseEnter, h2, hm, hc1, hc2,
                Bool.not_true, Bool.not_false, Bool.false_eq_true, if_false,
                Bool.true_and, if_true, updAV_drag, List.contains_cons]
              have hmne : mo ≠ dsm := by simpa using hm
              simp only [show ((p, m, mo) == (p, m, dsm)) = false by
                  simp [Prod.ext_iff, hmne],
                Bool.false_or, hc2, Bool.not_true, Bool.false_eq_true,
                if_false, if_true]
              exact posExtend_updAV _ _ _ _ _
            · simp only [handleCellMouseEnter, h2, hm, hc1, hc2,
                Bool.not_true, Bool.not_false, Bool.false_eq_true, if_false,
                Bool.true_and, if_true, updAV_drag, List.contains_cons]
              have hmne : mo ≠ dsm := by simpa using hm
              simp only [show ((p, m, mo) == (p, m, dsm)) = false by
                  simp [Prod.ext_iff, hmne],
                Bool.false_or, hc2, Bool.not_false, if_true]
              exact posExtend_trans (posExtend_updAV _ _ _ _ _)
                (posExtend_updAV _ _ _ _ _)
        · simp only [handleCellMouseEnter, h2, hm, Bool.not_true,
            Bool.not_false, Bool.false_eq_true, if_false, Bool.true_and,
            if_true]
          exact posExtend_refl _

theorem posExtend_up (p m : String) (mo : MonthId) (cv : Int)
    (s : GridState) :
    PosExtend s.allocations (handleCellMouseUp p m mo cv s).allocations := by
  by_cases hact : s.drag.active = true
  · by_cases hmoved : s.drag.hasMoved = true
    · rw [up_moved p m mo cv s hact hmoved]
      exact posExtend_refl _
    · rw [up_click p m mo cv s hact (by simpa using hmoved)]
      exact posExtend_updAV _ _ _ _ _
  · rw [up_inactive p m mo cv s (by simpa using hact)]
    exact posExtend_refl _

theorem posExtend_save (s : GridState) :
    PosExtend s.allocations (saveEditing s).allocations := by
  unfold saveEditing
  cases s.editingCell with
  | none => exact posExtend_refl _
  | some cell =>
    obtain ⟨p, m, mo⟩ := cell
    cases parseIntJS s.editValue with
    | some n => exact posExtend_updAV _ _ _ _ _
    | none => exact posExtend_refl _

/-- The fold of per-record deletes filters out exactly the collected
ids. -/
theorem foldl_delete_allocations (matching : List Allocation) :
    ∀ (st : GridState),
      (matching.foldl (fun st a =>
        { st with allocations := deleteAllocation a.id st.allocations })
        st).allocations
      = st.allocations.filter (fun x => matching.all (fun b => x.id != b.id)) := by
  induction matching with
  | nil =>
    intro st
    simp
  | cons b bs ih =>
    intro st
    rw [List.foldl_cons, ih]
    show (deleteAllocation b.id st.allocations).filter _ = _
    unfold deleteAllocation
    rw [List.filter_filter]
    refine List.filter_congr (fun x _ => ?_)
    simp [Bool.and_comm]

theorem removeMember_allocations (p m : String) (s : GridState) :
    (handleRemoveMemberFromProject p m s).allocations =
      s.allocations.filter (fun x =>
        (s.allocations.filter
          (fun a => a.projectId == p && a.memberId == m)).all
            (fun b => x.id != b.id)) := by
  unfold handleRemoveMemberFromProject
  exact foldl_delete_allocations _ s

theorem posExtend_remove (p m : String) (s : GridState) :
    PosExtend s.allocations
      (handleRemoveMemberFromProject p m s).allocations := by
  rw [removeMember_allocations]
  exact posExtend_filter _ _

theorem posExtend_step (s : GridState) (e : GridEvent) :
    PosExtend s.allocations (step s e).allocations := by
  cases e with
  | mouseDown p m mo => exact posExtend_refl _
  | mouseEnter p m mo => exact posExtend_enter p m mo s
  | mouseUp p m mo => exact posExtend_up p m mo _ s
  | globalMouseUp =>
    rw [show (step s .globalMouseUp).allocations = s.allocations from
      globalUp_allocations s]
    exact posExtend_refl _
  | openEditor p m mo => exact posExtend_refl _
  | setEditValue t => exact posExtend_refl _
  | commitEdit => exact posExtend_save s
  | removeMember p m => exact posExtend_remove p m s

theorem posExtend_runEvents (es : List GridEvent) :
    ∀ s : GridState, PosExtend s.allocations (runEvents s es).allocations := by
  induction es with
  | nil => intro s; exact posExtend_refl _
  | cons e es ih =>
    intro s
    exact posExtend_trans (posExtend_step s e) (ih (step s e))

/-! ## Aggregation lemmas -/

/-- The cost one allocation contributes to the aggregation paths: zero
when the member or the member's role does not resolve, otherwise
`hours × (percentage / 100) × rate`. -/
def allocationContribution (members : List TeamMember) (roles : List Role)
    (a : Allocation) : ℚ :=
  match members.find? (fun mb => mb.id == a.memberId) with
  | none => 0
  | some mb =>
    match roles.find? (fun r => r.id == mb.roleId) with
    | none => 0
    | some r =>
      ((getBusinessHoursInMonth a.month : ℚ) * ((a.percentage : ℚ) / 100)) *
        r.defaultHourlyRate

theorem foldl_add_eq_sum {α β : Type} [AddCommMonoid α] (f : β → α)
    (l : List β) :
    ∀ c : α, l.foldl (fun acc x => acc + f x) c = c + (l.map f).sum := by
  induction l with
  | nil =>
    intro c
    simp
  | cons x xs ih =>
    intro c
    rw [List.foldl_cons, ih, List.map_cons, List.sum_cons, add_assoc]

theorem calculateProjectTotal_eq (allocations : List Allocation)
    (members : List TeamMember) (roles : List Role) (projId : String) :
    calculateProjectTotal allocations members roles projId =
      ((allocations.filter (fun a => a.projectId == projId)).map
        (allocationContribution members roles)).sum := by
  unfold calculateProjectTotal
  have hbody : (fun (sum : ℚ) (alloc : Allocation) =>
      let member := members.find? (fun mb => mb.id == alloc.memberId)
      let role : Option Role := match member with
        | some mb => roles.find? (fun r => r.id == mb.roleId)
        | none => none
      match member, role with
      | some _, some r =>
        let hours : ℚ :=
          (getBusinessHoursInMonth alloc.month : ℚ) *
            ((alloc.percentage : ℚ) / 100)
        sum + hours * r.defaultHourlyRate
      | _, _ => sum) =
      (fun sum alloc => sum + allocationContribution members roles alloc) := by
    funext sum alloc
    unfold allocationContribution
    dsimp only
    cases members.find? (fun mb => mb.id == alloc.memberId) with
    | none => simp
    | some mb =>
      dsimp only
      cases roles.find? (fun r => r.id == mb.roleId) with
      | none => simp
      | some r => simp
  rw [hbody, foldl_add_eq_sum, zero_add]

theorem monthCost_eq (allocations : List Allocation)
    (members : List TeamMember) (roles : List Role) (mo : MonthId) :
    monthCost allocations members roles mo =
      ((allocations.filter (fun a => a.month == mo)).map
        (allocationContribution members roles)).sum := by
  unfold monthCost
  have key : ∀ (l : List Allocation), (∀ a ∈ l, a.month = mo) → ∀ c : ℚ,
      l.foldl (fun totalCost alloc =>
        let member := members.find? (fun mb => mb.id == alloc.memberId)
        let role : Option Role := match member with
          | some mb => roles.find? (fun r => r.id == mb.roleId)
          | none => none
        match member, role with
        | some _, some r =>
          totalCost + ((getBusinessHoursInMonth mo : ℚ) *
            ((alloc.percentage : ℚ) / 100)) * r.defaultHourlyRate
        | _, _ => totalCost) c =
      c + (l.map (allocationContribution members roles)).sum := by
    intro l
    induction l with
    | nil =>
      intro _ c
      simp
    | cons x xs ih =>
      intro hmo c
      rw [List.foldl_cons, ih (fun a ha => hmo a (List.mem_cons_of_mem _ ha)),
        List.map_cons, List.sum_cons, ← add_assoc]
      congr 1
      have hx : x.month = mo := hmo x (List.mem_cons_self _ _)
      unfold allocationContribution
      dsimp only
      cases members.find? (fun mb => mb.id == x.memberId) with
      | none => simp
      | some mb =>
        dsimp only
        cases roles.find? (fun r => r.id == mb.roleId) with
        | none => simp
        | some r =>
          rw [hx]
  rw [key _ (fun a ha => by simpa using (List.mem_filter.mp ha).2), zero_add]

theorem personMonthTotal_eq (allocations : List Allocation)
    (memberId : String) (mo : MonthId) :
    personMonthTotal allocations memberId mo =
      ((allocations.filter
        (fun a => a.memberId == memberId && a.month == mo)).map
          (·.percentage)).sum := by
  unfold personMonthTotal
  rw [foldl_add_eq_sum, zero_add]

theorem personMonthTotal_append_match (l : List Allocation) (a : Allocation)
    (mbId : String) (mo : MonthId) (h1 : a.memberId = mbId)
    (h2 : a.month = mo) :
    personMonthTotal (l ++ [a]) mbId mo =
      personMonthTotal l mbId mo + a.percentage := by
  rw [personMonthTotal_eq, personMonthTotal_eq, List.filter_append,
    List.map_append, List.sum_append]
  simp [h1, h2]

theorem personMonthTotal_month_mem (allocations : List Allocation)
    (mbId : String) (mo : MonthId)
    (h : personMonthTotal allocations mbId mo ≠ 0) :
    mo ∈ allocations.map (·.month) := by
  by_contra hmo
  apply h
  rw [personMonthTotal_eq]
  have hnil : allocations.filter
      (fun a => a.memberId == mbId && a.month == mo) = [] := by
    rw [List.filter_eq_nil_iff]
    intro a ha hpa
    rcases Bool.and_eq_true_iff.mp hpa with ⟨_, hmo'⟩
    exact hmo (List.mem_map.mpr ⟨a, ha, by simpa using hmo'⟩)
  rw [hnil]
  rfl

theorem mem_insertMonth (a x : MonthId) (l : List MonthId) :
    x ∈ insertMonth a l ↔ x = a ∨ x ∈ l := by
  induction l with
  | nil => simp [insertMonth]
  | cons b bs ih =>
    unfold insertMonth
    split
    · simp
    · rw [List.mem_cons, ih, List.mem_cons]
      tauto

theorem mem_sortMonths (x : MonthId) (l : List MonthId) :
    x ∈ sortMonths l ↔ x ∈ l := by
  induction l with
  | nil => simp [sortMonths]
  | cons b bs ih =>
    show x ∈ insertMonth b (sortMonths bs) ↔ _
    rw [mem_insertMonth, ih, List.mem_cons]

theorem mem_overAllocationFindings (members : List TeamMember)
    (allocations : List Allocation) (f : OverAllocationFinding) :
    f ∈ overAllocationFindings members allocations ↔
      ∃ mb ∈ members, ∃ mo ∈ allocations.map (·.month),
        100 < personMonthTotal allocations mb.id mo ∧
        f = ⟨mb.name, mo, personMonthTotal allocations mb.id mo⟩ := by
  unfold overAllocationFindings
  rw [List.mem_flatMap]
  constructor
  · rintro ⟨mb, hmb, hf⟩
    rw [List.mem_filterMap] at hf
    obtain ⟨mo, hmo, heq⟩ := hf
    rw [Option.ite_none_right_eq_some] at heq
    refine ⟨mb, hmb, mo, ?_, heq.1, ?_⟩
    · rw [mem_sortMonths, List.mem_dedup] at hmo
      exact hmo
    · exact Option.some.inj heq.2.symm
  · rintro ⟨mb, hmb, mo, hmo, htot, rfl⟩
    refine ⟨mb, hmb, ?_⟩
    rw [List.mem_filterMap]
    refine ⟨mo, ?_, ?_⟩
    · rw [mem_sortMonths, List.mem_dedup]
      exact hmo
    · rw [Option.ite_none_right_eq_some]
      exact ⟨htot, rfl⟩

/-! ## Concrete example data for instantiations -/

/-- A sample stored allocation. -/
def exAlloc : Allocation :=
  { id := 0, projectId := "p1", memberId := "m1", month := ⟨2024, 5⟩,
    percentage := 50 }

/-- An idle drag state. -/
def exDrag : DragState :=
  { active := false, projectId := "", memberId := "", startMonth := ⟨0, 0⟩,
    startValue := 0, paintValue := 0, hasMoved := false, paintedCells := [] }

/-- A small well-formed grid state. -/
def exState : GridState :=
  { allocations := [exAlloc], nextId := 1, drag := exDrag,
    editingCell := none, editValue := "" }

/-- `exState` with a cell opened for entry holding unparseable text. -/
def exBadEditState : GridState :=
  { allocations := [exAlloc], nextId := 1, drag := exDrag,
    editingCell := some ("p1", "m1", ⟨2024, 5⟩), editValue := "abc" }

/-- `exState` with a cell opened for entry holding a negative number. -/
def exNegState : GridState :=
  { allocations := [exAlloc], nextId := 1, drag := exDrag,
    editingCell := some ("p1", "m1", ⟨2024, 5⟩), editValue := "-20" }

/-- A complete pointer gesture: down on the start cell, a sequence of
enters, then up on the cell under the pointer, each handler fed the
displayed cell value exactly as the component wires it. -/
def dragGesture (p m : String) (mo₀ : MonthId)
    (es : List (String × String × MonthId)) (qu mu : String) (mou : MonthId)
    (s₀ : GridState) : GridState :=
  let s1 := handleCellMouseDown p m mo₀ (cellValue s₀ p m mo₀) s₀
  let s2 := runEnters s1 es
  handleCellMouseUp qu mu mou (cellValue s2 qu mu mou) s2

theorem cellValue_eq_of_allocations (s s' : GridState)
    (h : s.allocations = s'.allocations) (p m : String) (mo : MonthId) :
    cellValue s p m mo = cellValue s' p m mo := by
  unfold cellValue findAllocation
  rw [h]

/-! ## Claim theorems -/

/-- **C8**: for every (year, month) pair, `getBusinessHoursInMonth`
returns (count of Monday–Friday weekdays in that month) × 8, with
Saturdays (day 6) and Sundays (day 0) excluded and no holiday calendar;
the leap rule is the full Gregorian one; April 2024 (22 weekdays) gives
176 and February 2024 (leap year, 21 weekdays) gives 168. -/
theorem C8_businessHours (mo : MonthId) (hmo : 1 ≤ mo.month) :
    getBusinessHoursInMonth mo =
      ((List.range (daysInMonth mo.year (mo.month - 1))).filter (fun i =>
        dayOfWeek mo.year mo.month (i + 1) != 0 &&
        dayOfWeek mo.year mo.month (i + 1) != 6)).length * 8 ∧
    daysInMonth 2024 1 = 29 ∧ daysInMonth 2023 1 = 28 ∧
    daysInMonth 1900 1 = 28 ∧ daysInMonth 2000 1 = 29 ∧
    getBusinessHoursInMonth ⟨2024, 4⟩ = 176 ∧
    getBusinessHoursInMonth ⟨2024, 2⟩ = 168 ∧
    getBusinessHoursInMonth ⟨2023, 2⟩ = 160 := by
  refine ⟨?_, by decide, by decide, by decide, by decide, by decide,
    by decide, by decide⟩
  unfold getBusinessHoursInMonth getBusinessDaysInMonth
  rw [Nat.sub_add_cancel hmo]

theorem C8_businessHours_witness :
    getBusinessHoursInMonth ⟨2024, 4⟩ =
      ((List.range (daysInMonth (⟨2024, 4⟩ : MonthId).year
          ((⟨2024, 4⟩ : MonthId).month - 1))).filter (fun i =>
        dayOfWeek (⟨2024, 4⟩ : MonthId).year (⟨2024, 4⟩ : MonthId).month
          (i + 1) != 0 &&
        dayOfWeek (⟨2024, 4⟩ : MonthId).year (⟨2024, 4⟩ : MonthId).month
          (i + 1) != 6)).length * 8 :=
  (C8_businessHours ⟨2024, 4⟩ (by decide)).1

/-- **C7**: a direct-entry commit whose text does not parse as an
integer performs no store mutation of any kind: the allocation list and
the fresh-id counter are exactly those before the commit.  (The model is
total, so no error can propagate.) -/
theorem C7_unparseable_no_mutation (s : GridState)
    (h : parseIntJS s.editValue = none) :
    (saveEditing s).allocations = s.allocations ∧
    (saveEditing s).nextId = s.nextId := by
  unfold saveEditing
  cases he : s.editingCell with
  | none => exact ⟨rfl, rfl⟩
  | some cell =>
    obtain ⟨p, m, mo⟩ := cell
    simp [h]

theorem C7_unparseable_witness :
    (saveEditing exBadEditState).allocations = exBadEditState.allocations ∧
    (saveEditing exBadEditState).nextId = exBadEditState.nextId :=
  C7_unparseable_no_mutation exBadEditState (by decide)

/-- **C3**: writing 0 through the engine's single write path deletes the
existing record for that key and is a no-op when none exists; after the
delete the key reads back not-found; and across any sequence of grid
events a store free of zero-percentage records stays free of them. -/
theorem C3_zero_is_delete :
    (∀ (s : GridState) (p m : String) (mo : MonthId),
      (updateAllocationValue p m mo 0 s).allocations =
        (match findAllocation s.allocations p m mo with
         | some ex => deleteAllocation ex.id s.allocations
         | none => s.allocations)) ∧
    (∀ (s : GridState) (p m : String) (mo : MonthId), StoreInv s →
      findAllocation (updateAllocationValue p m mo 0 s).allocations
        p m mo = none) ∧
    (∀ (s : GridState) (es : List GridEvent),
      (∀ a ∈ s.allocations, a.percentage ≠ 0) →
      ∀ a ∈ (runEvents s es).allocations, a.percentage ≠ 0) := by
  refine ⟨?_, ?_, ?_⟩
  · intro s p m mo
    cases hfind : findAllocation s.allocations p m mo with
    | some ex => rw [updAV_nonpos_some p m mo 0 s ex (by norm_num) hfind]
    | none => rw [updAV_nonpos_none p m mo 0 s (by norm_num) hfind]
  · intro s p m mo hinv
    exact find_updAV_zero p m mo 0 s hinv.2.2 (by norm_num)
  · intro s es h a ha
    rcases posExtend_runEvents es s a ha with ha' | hpos
    · exact h a ha'
    · exact ne_of_gt hpos

theorem C3_zero_witness :
    findAllocation (updateAllocationValue "p1" "m1" ⟨2024, 5⟩ 0
        exState).allocations "p1" "m1" ⟨2024, 5⟩ = none ∧
    (∀ a ∈ (runEvents exState
        [GridEvent.mouseDown "p1" "m1" ⟨2024, 5⟩,
         GridEvent.mouseUp "p1" "m1" ⟨2024, 5⟩]).allocations,
      a.percentage ≠ 0) :=
  ⟨C3_zero_is_delete.2.1 exState "p1" "m1" ⟨2024, 5⟩ (by decide),
   C3_zero_is_delete.2.2 exState
     [GridEvent.mouseDown "p1" "m1" ⟨2024, 5⟩,
      GridEvent.mouseUp "p1" "m1" ⟨2024, 5⟩] (by decide)⟩

/-- **C10** (implicit): a direct-entry commit parsing to a negative
integer takes the delete path — the cell's record, if any, is removed
and nothing is created — and across any sequence of grid events a store
with no negative percentage never gains one. -/
theorem C10_negative_entry :
    (∀ (s : GridState) (p m : String) (mo : MonthId) (n : Int),
      s.editingCell = some (p, m, mo) → parseIntJS s.editValue = some n →
      n < 0 → StoreInv s →
      findAllocation (saveEditing s).allocations p m mo = none ∧
      ∀ a ∈ (saveEditing s).allocations, a ∈ s.allocations) ∧
    (∀ (s : GridState) (es : List GridEvent),
      (∀ a ∈ s.allocations, 0 ≤ a.percentage) →
      ∀ a ∈ (runEvents s es).allocations, 0 ≤ a.percentage) := by
  refine ⟨?_, ?_⟩
  · intro s p m mo n hedit hparse hneg hinv
    have hsave : (saveEditing s).allocations =
        (updateAllocationValue p m mo n s).allocations := by
      unfold saveEditing
      simp only [hedit, hparse]
    constructor
    · rw [hsave]
      exact find_updAV_zero p m mo n s hinv.2.2 (by omega)
    · intro a ha
      rw [hsave] at ha
      rcases mem_updAV p m mo n s a ha with h | ⟨hv, _⟩
      · exact h
      · exact absurd hv (by omega)
  · intro s es h a ha
    rcases posExtend_runEvents es s a ha with ha' | hpos
    · exact h a ha'
    · exact le_of_lt hpos

theorem C10_negative_witness :
    (findAllocation (saveEditing exNegState).allocations
        "p1" "m1" ⟨2024, 5⟩ = none ∧
      ∀ a ∈ (saveEditing exNegState).allocations,
        a ∈ exNegState.allocations) ∧
    (∀ a ∈ (runEvents exNegState [GridEvent.commitEdit]).allocations,
      0 ≤ a.percentage) :=
  ⟨C10_negative_entry.1 exNegState "p1" "m1" ⟨2024, 5⟩ (-20) rfl (by decide)
    (by decide) (by decide),
   C10_negative_entry.2 exNegState [GridEvent.commitEdit] (by decide)⟩

/-- **C6**: removing a member from a project deletes exactly the
allocation records of that (project, member) pair, across all months:
the result is the filter dropping those records, so none remains, and
every record of another pair survives unchanged. -/
theorem C6_removeMember (p m : String) (s : GridState) (hinv : StoreInv s) :
    (handleRemoveMemberFromProject p m s).allocations =
      s.allocations.filter
        (fun a => !(a.projectId == p && a.memberId == m)) ∧
    (∀ a ∈ (handleRemoveMemberFromProject p m s).allocations,
      ¬(a.projectId = p ∧ a.memberId = m)) ∧
    (∀ a ∈ s.allocations, ¬(a.projectId = p ∧ a.memberId = m) →
      a ∈ (handleRemoveMemberFromProject p m s).allocations) := by
  have hmain : (handleRemoveMemberFromProject p m s).allocations =
      s.allocations.filter
        (fun a => !(a.projectId == p && a.memberId == m)) := by
    rw [removeMember_allocations]
    refine List.filter_congr (fun x hx => ?_)
    by_cases hxmatch : (x.projectId == p && x.memberId == m) = true
    · have hxmem : x ∈ s.allocations.filter
          (fun a => a.projectId == p && a.memberId == m) :=
        List.mem_filter.mpr ⟨hx, hxmatch⟩
      have hall : (s.allocations.filter
          (fun a => a.projectId == p && a.memberId == m)).all
            (fun b => x.id != b.id) = false := by
        rw [Bool.eq_false_iff]
        intro hcontra
        have := List.all_eq_true.mp hcontra x hxmem
        simp at this
      rw [hall, hxmatch]
      rfl
    · have hall : (s.allocations.filter
          (fun a => a.projectId == p && a.memberId == m)).all
            (fun b => x.id != b.id) = true := by
        rw [List.all_eq_true]
        intro b hb
        have hbmem := List.mem_filter.mp hb
        simp only [bne_iff_ne, ne_eq]
        intro hid
        have hxb : x = b := hinv.2.1 x hx b hbmem.1 hid
        exact hxmatch (hxb ▸ hbmem.2)
      rw [hall]
      have hx' : (x.projectId == p && x.memberId == m) = false :=
        Bool.eq_false_iff.mpr hxmatch
      rw [hx']
      rfl
  refine ⟨hmain, ?_, ?_⟩
  · intro a ha
    rw [hmain] at ha
    have hp := (List.mem_filter.mp ha).2
    intro hc
    rw [hc.1, hc.2] at hp
    simp at hp
  · intro a ha hne
    rw [hmain]
    refine List.mem_filter.mpr ⟨ha, ?_⟩
    rcases not_and_or.mp hne with h' | h' <;> simp [h']

/-- A second well-formed state with records for two rows: the pair
(`"p1"`, `"m1"`) in two months, the same member on project `"p2"`, and
another member on `"p1"`. -/
def exMultiState : GridState :=
  { allocations :=
      [⟨0, "p1", "m1", ⟨2024, 5⟩, 50⟩,
       ⟨1, "p1", "m1", ⟨2024, 6⟩, 100⟩,
       ⟨2, "p2", "m1", ⟨2024, 5⟩, 25⟩,
       ⟨3, "p1", "m2", ⟨2024, 5⟩, 75⟩],
    nextId := 4, drag := exDrag, editingCell := none, editValue := "" }

theorem C6_removeMember_witness :
    (handleRemoveMemberFromProject "p1" "m1" exMultiState).allocations =
      exMultiState.allocations.filter
        (fun a => !(a.projectId == "p1" && a.memberId == "m1")) :=
  (C6_removeMember "p1" "m1" exMultiState (by decide)).1

/-- A full click on one cell: pointer-down then pointer-up without
leaving it, each handler reading the displayed value as the component
wires it. -/
def clickCell (p m : String) (mo : MonthId) (s : GridState) : GridState :=
  let s1 := handleCellMouseDown p m mo (cellValue s p m mo) s
  handleCellMouseUp p m mo (cellValue s1 p m mo) s1

theorem cellValue_clickCell (p m : String) (mo : MonthId) (s : GridState)
    (hinv : StoreInv s) :
    cellValue (clickCell p m mo s) p m mo =
      (if cellValue s p m mo = 0 then 100
       else if cellValue s p m mo = 100 then 50 else 0) := by
  unfold clickCell
  rw [up_click p m mo _ _ rfl rfl]
  have hkeys : KeysUnique (handleCellMouseDown p m mo
      (cellValue s p m mo) s).allocations := hinv.2.2
  show cellValue (updateAllocationValue p m mo _
    (handleCellMouseDown p m mo (cellValue s p m mo) s)) p m mo = _
  rw [cellValue_updAV_self p m mo _ _ hkeys]
  have hcv : cellValue (handleCellMouseDown p m mo (cellValue s p m mo) s)
      p m mo = cellValue s p m mo := rfl
  rw [hcv]
  by_cases h0 : cellValue s p m mo = 0
  · simp [h0]
  · by_cases h100 : cellValue s p m mo = 100
    · simp [h0, h100]
    · simp [h0, h100]

theorem storeInv_clickCell (p m : String) (mo : MonthId) (s : GridState)
    (hinv : StoreInv s) : StoreInv (clickCell p m mo s) := by
  unfold clickCell
  rw [up_click p m mo _ _ rfl rfl]
  have h2 := storeInv_updAV p m mo
    (if cellValue (handleCellMouseDown p m mo (cellValue s p m mo) s)
        p m mo == 0 then 100
     else if cellValue (handleCellMouseDown p m mo (cellValue s p m mo) s)
        p m mo == 100 then 50 else 0)
    (handleCellMouseDown p m mo (cellValue s p m mo) s)
    ⟨hinv.1, hinv.2.1, hinv.2.2⟩
  exact ⟨h2.1, h2.2.1, h2.2.2⟩

/-- **C2**: a click-cycle sets the cell from its current value `v` to
100 when `v = 0`, to 50 when `v = 100`, and to 0 otherwise (including
manually typed values such as 73); iterating clicks on an initially
empty cell therefore visits exactly 0, 100, 50, 0, 100, … -/
theorem C2_clickCycle (p m : String) (mo : MonthId) :
    (∀ s : GridState, StoreInv s →
      cellValue (clickCell p m mo s) p m mo =
        (if cellValue s p m mo = 0 then 100
         else if cellValue s p m mo = 100 then 50 else 0)) ∧
    (∀ s : GridState, StoreInv s → cellValue s p m mo = 0 →
      ∀ n : Nat, cellValue ((clickCell p m mo)^[n] s) p m mo =
        (if n % 3 = 0 then 0 else if n % 3 = 1 then 100 else 50)) := by
  refine ⟨fun s hinv => cellValue_clickCell p m mo s hinv, ?_⟩
  intro s hinv h0 n
  have aux : ∀ k : Nat, StoreInv ((clickCell p m mo)^[k] s) ∧
      cellValue ((clickCell p m mo)^[k] s) p m mo =
        (if k % 3 = 0 then 0 else if k % 3 = 1 then 100 else 50) := by
    intro k
    induction k with
    | zero => exact ⟨hinv, by simpa using h0⟩
    | succ k ih =>
      rw [Function.iterate_succ_apply']
      refine ⟨storeInv_clickCell _ _ _ _ ih.1, ?_⟩
      rw [cellValue_clickCell _ _ _ _ ih.1, ih.2]
      have h3 : k % 3 = 0 ∨ k % 3 = 1 ∨ k % 3 = 2 := by omega
      rcases h3 with h | h | h
      · have h1 : (k + 1) % 3 = 1 := by omega
        rw [h, h1]
        norm_num
      · have h1 : (k + 1) % 3 = 2 := by omega
        rw [h, h1]
        norm_num
      · have h1 : (k + 1) % 3 = 0 := by omega
        rw [h, h1]
        norm_num
  exact (aux n).2

theorem C2_clickCycle_witness :
    cellValue ((clickCell "p2" "m2" ⟨2024, 7⟩)^[4] exState)
      "p2" "m2" ⟨2024, 7⟩ =
      (if 4 % 3 = 0 then 0 else if 4 % 3 = 1 then 100 else 50) :=
  (C2_clickCycle "p2" "m2" ⟨2024, 7⟩).2 exState (by decide) (by decide) 4

/-- **C4**: the per-person-per-month total is the unclamped sum of the
member's percentages for the month; the over-allocation pre-check emits
a finding exactly for the (member, month) pairs whose total exceeds
100, over every month present in the allocation set (no fixed window);
and a direct entry of 150 on an empty cell raises the member's month
total by the full 150. -/
theorem C4_overAllocation (members : List TeamMember)
    (allocations : List Allocation) :
    (∀ mb ∈ members, ∀ mo : MonthId,
      100 < personMonthTotal allocations mb.id mo →
        (⟨mb.name, mo, personMonthTotal allocations mb.id mo⟩ :
          OverAllocationFinding) ∈
            overAllocationFindings members allocations) ∧
    (∀ f ∈ overAllocationFindings members allocations,
      ∃ mb ∈ members, mb.name = f.personName ∧
        f.total = personMonthTotal allocations mb.id f.month ∧
        100 < f.total) ∧
    (∀ (mbId : String) (mo : MonthId),
      personMonthTotal allocations mbId mo =
        ((allocations.filter
          (fun a => a.memberId == mbId && a.month == mo)).map
            (·.percentage)).sum) ∧
    (∀ (s : GridState) (p mbId : String) (mo : MonthId),
      s.editingCell = some (p, mbId, mo) → s.editValue = "150" →
      findAllocation s.allocations p mbId mo = none →
      personMonthTotal (saveEditing s).allocations mbId mo =
        personMonthTotal s.allocations mbId mo + 150) := by
  refine ⟨?_, ?_, ?_, ?_⟩
  · intro mb hmb mo htot
    rw [mem_overAllocationFindings]
    refine ⟨mb, hmb, mo, ?_, htot, rfl⟩
    exact personMonthTotal_month_mem allocations mb.id mo (by omega)
  · intro f hf
    rw [mem_overAllocationFindings] at hf
    obtain ⟨mb, hmb, mo, _, htot, rfl⟩ := hf
    exact ⟨mb, hmb, rfl, rfl, htot⟩
  · intro mbId mo
    exact personMonthTotal_eq allocations mbId mo
  · intro s p mbId mo hedit hval hfind
    have hparse : parseIntJS s.editValue = some 150 := by
      rw [hval]
      decide
    have hsave : (saveEditing s).allocations =
        s.allocations ++ [⟨s.nextId, p, mbId, mo, 150⟩] := by
      unfold saveEditing
      simp only [hedit, hparse]
      rw [updAV_pos_none p mbId mo 150 s (by norm_num) hfind]
      rfl
    rw [hsave]
    exact personMonthTotal_append_match s.allocations _ mbId mo rfl rfl

/-- A sample member and role roster. -/
def exMember : TeamMember :=
  { id := "m1", name := "Sarah", roleId := "r1",
    memberType := MemberType.fullTime }

def exRole : Role := { id := "r1", title := "Dev", defaultHourlyRate := 150 }

/-- An over-allocated store: member `"m1"` totals 150 in 2024-05. -/
def exOverAllocations : List Allocation :=
  [⟨0, "p1", "m1", ⟨2024, 5⟩, 100⟩, ⟨1, "p2", "m1", ⟨2024, 5⟩, 50⟩]

theorem C4_overAllocation_witness :
    (⟨exMember.name, ⟨2024, 5⟩,
        personMonthTotal exOverAllocations exMember.id ⟨2024, 5⟩⟩ :
      OverAllocationFinding) ∈
        overAllocationFindings [exMember] exOverAllocations :=
  (C4_overAllocation [exMember] exOverAllocations).1 exMember
    (by decide) ⟨2024, 5⟩ (by decide)

/-- **C9**: both cost paths resolve member then role; an allocation with
a dangling member or role reference contributes exactly 0 (and the
computation is a total function, so nothing is thrown), while a fully
resolved allocation contributes
`businessHours(month) × (percentage / 100) × rate`; the per-project
total and every entry of the monthly series are the sums of these
contributions, and the series' revenue is cost × 1.3. -/
theorem C9_danglingReferences (allocations : List Allocation)
    (members : List TeamMember) (roles : List Role) :
    (∀ projId : String, calculateProjectTotal allocations members roles
        projId =
      ((allocations.filter (fun a => a.projectId == projId)).map
        (allocationContribution members roles)).sum) ∧
    (∀ a : Allocation,
      members.find? (fun mb => mb.id == a.memberId) = none →
      allocationContribution members roles a = 0) ∧
    (∀ (a : Allocation) (mb : TeamMember),
      members.find? (fun mb' => mb'.id == a.memberId) = some mb →
      roles.find? (fun r => r.id == mb.roleId) = none →
      allocationContribution members roles a = 0) ∧
    (∀ (a : Allocation) (mb : TeamMember) (r : Role),
      members.find? (fun mb' => mb'.id == a.memberId) = some mb →
      roles.find? (fun r' => r'.id == mb.roleId) = some r →
      allocationContribution members roles a =
        ((getBusinessHoursInMonth a.month : ℚ) *
          ((a.percentage : ℚ) / 100)) * r.defaultHourlyRate) ∧
    (∀ entry ∈ financialData allocations members roles,
      entry.cost = ((allocations.filter
          (fun a => a.month == entry.month)).map
            (allocationContribution members roles)).sum ∧
      entry.revenue = entry.cost * (13 / 10 : ℚ) ∧
      entry.hours = getBusinessHoursInMonth entry.month) := by
  refine ⟨?_, ?_, ?_, ?_, ?_⟩
  · intro projId
    exact calculateProjectTotal_eq allocations members roles projId
  · intro a hnone
    unfold allocationContribution
    rw [hnone]
  · intro a mb hmb hrole
    unfold allocationContribution
    rw [hmb]
    dsimp only
    rw [hrole]
  · intro a mb r hmb hr
    unfold allocationContribution
    rw [hmb]
    dsimp only
    rw [hr]
  · intro entry hentry
    unfold financialData at hentry
    rw [List.mem_map] at hentry
    obtain ⟨mo, _, rfl⟩ := hentry
    refine ⟨?_, rfl, rfl⟩
    exact monthCost_eq allocations members roles mo

/-- Allocations whose member resolves but whose role dangles, next to a
fully resolved one. -/
def exMixedMembers : List TeamMember :=
  [exMember,
   { id := "m2", name := "Lee", roleId := "ghost",
     memberType := MemberType.contractor }]

def exMixedAllocations : List Allocation :=
  [⟨0, "p1", "m1", ⟨2024, 5⟩, 100⟩,
   ⟨1, "p1", "m2", ⟨2024, 5⟩, 100⟩,
   ⟨2, "p1", "ghostMember", ⟨2024, 5⟩, 100⟩]

theorem C9_danglingReferences_witness :
    calculateProjectTotal exMixedAllocations exMixedMembers [exRole] "p1" =
      ((exMixedAllocations.filter (fun a => a.projectId == "p1")).map
        (allocationContribution exMixedMembers [exRole])).sum :=
  (C9_danglingReferences exMixedAllocations exMixedMembers [exRole]).1 "p1"

/-- **C1**: the paint value is fixed at pointer-down as 100 when the
start cell shows 0 and 0 otherwise; if the pointer then enters at least
one other cell of the same row, every same-row cell entered during the
gesture — including the retroactively painted start cell — reads the
paint value once the gesture ends; re-entering an already painted cell
leaves the whole state untouched; and if no same-row movement occurs
the enters write nothing, so the gesture degrades to the click-cycle
performed at pointer-up. -/
theorem C1_dragPaint (s₀ : GridState) (p m : String) (mo₀ : MonthId)
    (hinv : StoreInv s₀) (es : List (String × String × MonthId))
    (qu mu : String) (mou : MonthId) :
    (handleCellMouseDown p m mo₀ (cellValue s₀ p m mo₀) s₀).drag.paintValue =
      (if cellValue s₀ p m mo₀ = 0 then 100 else 0) ∧
    ((∃ e ∈ es, e.1 = p ∧ e.2.1 = m ∧ e.2.2 ≠ mo₀) →
      cellValue (dragGesture p m mo₀ es qu mu mou s₀) p m mo₀ =
        (if cellValue s₀ p m mo₀ = 0 then 100 else 0) ∧
      ∀ e ∈ es, e.1 = p → e.2.1 = m →
        cellValue (dragGesture p m mo₀ es qu mu mou s₀) p m e.2.2 =
          (if cellValue s₀ p m mo₀ = 0 then 100 else 0)) ∧
    (∀ (s : GridState) (q mq : String) (mo : MonthId),
      s.drag.active = true → s.drag.hasMoved = true →
      (q, mq, mo) ∈ s.drag.paintedCells →
      handleCellMouseEnter q mq mo s = s) ∧
    ((∀ e ∈ es, ¬(e.1 = p ∧ e.2.1 = m ∧ e.2.2 ≠ mo₀)) →
      (runEnters (handleCellMouseDown p m mo₀ (cellValue s₀ p m mo₀) s₀)
        es).allocations = s₀.allocations) := by
  have hpv : (handleCellMouseDown p m mo₀
      (cellValue s₀ p m mo₀) s₀).drag.paintValue =
      (if cellValue s₀ p m mo₀ = 0 then 100 else 0) := by
    show (if (cellValue s₀ p m mo₀ == 0) = true then (100 : Int) else 0) = _
    by_cases h : cellValue s₀ p m mo₀ = 0 <;> simp [h]
  have hP : (if cellValue s₀ p m mo₀ = 0 then (100 : Int) else 0) = 0 ∨
      (if cellValue s₀ p m mo₀ = 0 then (100 : Int) else 0) = 100 := by
    by_cases h : cellValue s₀ p m mo₀ = 0 <;> simp [h]
  have hstart : StartInv s₀ p m mo₀
      (if cellValue s₀ p m mo₀ = 0 then 100 else 0)
      (handleCellMouseDown p m mo₀ (cellValue s₀ p m mo₀) s₀) :=
    ⟨rfl, rfl, rfl, rfl, hpv, rfl, rfl, rfl, rfl⟩
  refine ⟨hpv, ?_, ?_, ?_⟩
  · intro hex
    have hmoved := gesture_run s₀ p m mo₀ _ hP hinv es _ hstart hex
    have hupalloc : (dragGesture p m mo₀ es qu mu mou s₀).allocations =
        (runEnters (handleCellMouseDown p m mo₀ (cellValue s₀ p m mo₀) s₀)
          es).allocations :=
      up_allocations_of_moved qu mu mou _ _ hmoved.moved
    constructor
    · rw [cellValue_eq_of_allocations _ _ hupalloc]
      exact hmoved.paintedVal mo₀ (Or.inl rfl)
    · intro e he he1 he2
      rw [cellValue_eq_of_allocations _ _ hupalloc]
      refine hmoved.paintedVal e.2.2 (Or.inr ?_)
      unfold rowMonths
      rw [List.mem_filterMap]
      exact ⟨e, he, by rw [if_pos ⟨he1, he2⟩]⟩
  · intro s q mq mo hact hmoved hmem
    by_cases hrow : s.drag.projectId = q ∧ s.drag.memberId = mq
    · exact enter_moved_painted q mq mo s hact hrow.1 hrow.2 hmoved hmem
    · exact enter_other_row q mq mo s hact hrow
  · intro hnone
    rw [startInv_runEnters s₀ p m mo₀ _ es _ hstart hnone]
    rfl

theorem C1_dragPaint_witness :
    cellValue (dragGesture "p1" "m1" ⟨2024, 5⟩ [("p1", "m1", ⟨2024, 6⟩)]
        "p1" "m1" ⟨2024, 6⟩ exState) "p1" "m1" ⟨2024, 5⟩ =
      (if cellValue exState "p1" "m1" ⟨2024, 5⟩ = 0 then 100 else 0) :=
  ((C1_dragPaint exState "p1" "m1" ⟨2024, 5⟩ (by decide)
      [("p1", "m1", ⟨2024, 6⟩)] "p1" "m1" ⟨2024, 6⟩).2.1
    ⟨("p1", "m1", ⟨2024, 6⟩), by decide, rfl, rfl, by decide⟩).1

/-- **C5**: a pointer-enter while the active gesture belongs to another
row is a complete no-op on the state, and over any gesture in which
same-row movement occurred (drag-paint mode), every allocation record
of a different (project, member) pair survives unchanged and every
other row's cell lookup is untouched. -/
theorem C5_dragFrame (s₀ : GridState) (p m : String) (mo₀ : MonthId)
    (hinv : StoreInv s₀) (es : List (String × String × MonthId))
    (qu mu : String) (mou : MonthId) :
    (∀ (s : GridState) (q mq : String) (mo : MonthId),
      ¬(s.drag.projectId = q ∧ s.drag.memberId = mq) →
      handleCellMouseEnter q mq mo s = s) ∧
    ((∃ e ∈ es, e.1 = p ∧ e.2.1 = m ∧ e.2.2 ≠ mo₀) →
      (∀ b ∈ s₀.allocations, ¬(b.projectId = p ∧ b.memberId = m) →
        b ∈ (dragGesture p m mo₀ es qu mu mou s₀).allocations) ∧
      (∀ (q mq : String) (moq : MonthId), ¬(q = p ∧ mq = m) →
        findAllocation (dragGesture p m mo₀ es qu mu mou s₀).allocations
          q mq moq = findAllocation s₀.allocations q mq moq)) := by
  have hP : (if cellValue s₀ p m mo₀ = 0 then (100 : Int) else 0) = 0 ∨
      (if cellValue s₀ p m mo₀ = 0 then (100 : Int) else 0) = 100 := by
    by_cases h : cellValue s₀ p m mo₀ = 0 <;> simp [h]
  have hpv : (handleCellMouseDown p m mo₀
      (cellValue s₀ p m mo₀) s₀).drag.paintValue =
      (if cellValue s₀ p m mo₀ = 0 then 100 else 0) := by
    show (if (cellValue s₀ p m mo₀ == 0) = true then (100 : Int) else 0) = _
    by_cases h : cellValue s₀ p m mo₀ = 0 <;> simp [h]
  have hstart : StartInv s₀ p m mo₀
      (if cellValue s₀ p m mo₀ = 0 then 100 else 0)
      (handleCellMouseDown p m mo₀ (cellValue s₀ p m mo₀) s₀) :=
    ⟨rfl, rfl, rfl, rfl, hpv, rfl, rfl, rfl, rfl⟩
  constructor
  · intro s q mq mo hne
    by_cases hact : s.drag.active = true
    · exact enter_other_row q mq mo s hact hne
    · exact enter_inactive q mq mo s (by simpa using hact)
  · intro hex
    have hmoved := gesture_run s₀ p m mo₀ _ hP hinv es _ hstart hex
    have hupalloc : (dragGesture p m mo₀ es qu mu mou s₀).allocations =
        (runEnters (handleCellMouseDown p m mo₀ (cellValue s₀ p m mo₀) s₀)
          es).allocations :=
      up_allocations_of_moved qu mu mou _ _ hmoved.moved
    constructor
    · intro b hb hbrow
      rw [hupalloc]
      exact hmoved.frameMem b hb hbrow
    · intro q mq moq hne
      rw [show (dragGesture p m mo₀ es qu mu mou s₀).allocations = _ from
        hupalloc]
      exact hmoved.frameFind q mq moq (fun hc => hne ⟨hc.1, hc.2.1⟩)

theorem C5_dragFrame_witness :
    (⟨2, "p2", "m1", ⟨2024, 5⟩, 25⟩ : Allocation) ∈
      (dragGesture "p1" "m1" ⟨2024, 5⟩ [("p1", "m1", ⟨2024, 6⟩)]
        "p1" "m1" ⟨2024, 6⟩ exMultiState).allocations :=
  ((C5_dragFrame exMultiState "p1" "m1" ⟨2024, 5⟩ (by decide)
      [("p1", "m1", ⟨2024, 6⟩)] "p1" "m1" ⟨2024, 6⟩).2
    ⟨("p1", "m1", ⟨2024, 6⟩), by decide, rfl, rfl, by decide⟩).1
    ⟨2, "p2", "m1", ⟨2024, 5⟩, 25⟩ (by decide) (by decide)
